import Mathlib

/-!
# Verification of the go-huml HUML parser and encoder

This file shallowly embeds the go-huml repository's code in Lean 4 and proves
properties of the embedding.  The repository contains several iterations of the
parser:

* the byte-buffer parser of `decode.go` (`parser` methods, namespace `Buf` here);
* the final streaming lexer (`decode.go`, `lexer` methods) together with the
  token parser of `huml.go` (`streamParser` methods), namespace `Strm` here;
* the encoder of the unnamed encoder file (`Marshal`, `Encoder`, `state`
  methods), namespace `Enc` here.

Conventions of the embedding:

* Go strings and `[]byte` values are modelled as `List Char`, one `Char` per
  byte.  All inputs considered in the theorems are ASCII, where the two views
  agree.
* Go's `int64` arithmetic is modelled by `Int` arithmetic reduced into the
  two's-complement range by `wrap64` exactly where the Go code can overflow.
* Go maps built by the parser (`map[string]any` with an explicit duplicate-key
  check before every insertion) are modelled as association lists in insertion
  order.
* Fallible Go functions returning `(T, error)` are modelled with `Except String`,
  carrying the formatted error message.
* Loops whose bound is not structural (line-reading loops, the recursive descent
  of the parsers) take an explicit `fuel : Nat` argument and return the
  distinguished message `fuelErrMsg` when it runs out; every theorem below
  supplies enough fuel.
-/

namespace Huml

/-- A Go string / byte slice, one `Char` per byte (ASCII convention). -/
abbrev Str := List Char

/-- The distinguished out-of-fuel marker; never produced by the embedded code
itself, only by the fuel instrumentation. -/
def fuelErrMsg : String := "<out of fuel>"

/-- `isDigit` from `decode.go`: `c >= '0' && c <= '9'`. -/
def isDigit (c : Char) : Bool := '0' ≤ c && c ≤ '9'

/-- `isAlpha` from `decode.go`. -/
def isAlpha (c : Char) : Bool := ('a' ≤ c && c ≤ 'z') || ('A' ≤ c && c ≤ 'Z')

/-- `isAlphaNum` from `decode.go`. -/
def isAlphaNum (c : Char) : Bool := isAlpha c || isDigit c

/-- `isHex` from `decode.go`. -/
def isHex (c : Char) : Bool := isDigit c || ('a' ≤ c && c ≤ 'f') || ('A' ≤ c && c ≤ 'F')

/-- `isOctal` from `decode.go`. -/
def isOctal (c : Char) : Bool := '0' ≤ c && c ≤ '7'

/-- `isBinary` from `decode.go`. -/
def isBinary (c : Char) : Bool := c == '0' || c == '1'

/-- `isSpaceBytes` from `decode.go`: every byte is a space. -/
def isSpaceBytes (b : Str) : Bool := b.all (· == ' ')

/-- Go `int64` two's-complement wrap-around: reduce an integer into
`[-2^63, 2^63)` modulo `2^64`. -/
def wrap64 (n : Int) : Int := (n + 2 ^ 63) % 2 ^ 64 - 2 ^ 63

/-- Decimal rendering of a natural number (digits of `strconv` / `fmt`). -/
def natToStr (n : Nat) : Str := (Nat.repr n).toList

/-- Decimal rendering of an integer, as `strconv.FormatInt(v, 10)`. -/
def intToStr (n : Int) : Str :=
  if n < 0 then '-' :: natToStr n.natAbs else natToStr n.natAbs

/-- Byte-wise (lexicographic) strict comparison of Go strings, `a < b`. -/
def strLt : Str → Str → Bool
  | [], [] => false
  | [], _ :: _ => true
  | _ :: _, [] => false
  | a :: as, b :: bs => if a = b then strLt as bs else a < b

/-- The HUML value domain produced by the parsers: `nil`, `bool`, `int64`,
`float64`, `string`, `[]any`, `map[string]any` (as an insertion-ordered
association list). `float64` is modelled by `GFloat` below. -/
inductive GFloat where
  /-- A finite float, carried as its exact rational value. The theorems below
  only use values exactly representable in IEEE binary64. -/
  | num (q : ℚ)
  | nan
  | inf
  | negInf
deriving DecidableEq, Repr

inductive Value where
  | null
  | bool (b : Bool)
  | int (n : Int)
  | float (f : GFloat)
  | str (s : Str)
  | list (xs : List Value)
  | dict (es : List (Str × Value))

/-- Token types of `token.go`. -/
inductive TokenType where
  | eof | error | newline
  | key | quotedKey
  | scalarInd | vectorInd
  | string | int | float | bool | null | nan | inf
  | emptyList | emptyDict | listItem | comma
deriving DecidableEq, Repr

/-- `Token` of `token.go`. -/
structure Token where
  type : TokenType := .eof
  value : Str := []
  line : Nat := 0
  column : Nat := 0
  indent : Nat := 0
  spaceBefore : Bool := false
deriving DecidableEq, Repr

end Huml

namespace Huml

/-! ## The streaming lexer (`decode.go`, `lexer` methods), namespace `Strm`. -/

namespace Strm

/-- The `lexer` struct of `decode.go`.  `rest` models the unread part of the
`bufio.Reader`; `line = none` models the Go `nil` slice.  The reusable byte
buffers `lineBuf`/`strBuf` are a performance device with no semantic content
and are not modelled. -/
structure Lexer where
  rest : Str
  line : Option Str := none
  lineNum : Nat := 0
  pos : Nat := 0
  eof : Bool := false
  err : Option String := none
  tokens : List Token := []
  tokPos : Nat := 0
  atLineStart : Bool := true
  curIndent : Nat := 0
  hadSpaceBefore : Bool := false
  inMultilineStr : Bool := false

/-- `newLexer` of `decode.go`. -/
def newLexer (r : Str) : Lexer := { rest := r }

/-- The current line viewed as Go views a possibly-`nil` slice (`len(nil) = 0`). -/
def Lexer.lineD (l : Lexer) : Str := l.line.getD []

/-- Byte `i` of the current line (guarded by bounds checks at every use,
mirroring Go's `l.line[i]`). -/
def Lexer.at (l : Lexer) (i : Nat) : Char := l.lineD.getD i (Char.ofNat 0)

/-- `errorf` of the lexer: `fmt.Errorf("line %d: "+format, l.lineNum, ...)`. -/
def lexErrorf (lineNum : Nat) (msg : String) : String :=
  "line " ++ Nat.repr lineNum ++ ": " ++ msg

/-- Length of the maximal prefix satisfying `p`. -/
def countWhile (p : Char → Bool) : Str → Nat
  | [] => 0
  | c :: r => if p c then countWhile p r + 1 else 0

/-- Generic embedding of the Go loop `for pos < len(line) && p(line[pos]) { pos++ }`:
returns the final `pos` (expressed on the line suffix so it computes by
structural recursion). -/
def skipWhile (p : Char → Bool) (line : Str) (pos : Nat) : Nat :=
  pos + countWhile p (line.drop pos)

/-- Go slice `line[a:b]`. -/
def strSlice (line : Str) (a b : Nat) : Str := (line.drop a).take (b - a)

/-- `countIndent` of `decode.go`: count leading spaces of the current line. -/
def Lexer.countIndent (l : Lexer) : Nat := skipWhile (· == ' ') l.lineD 0

/-- `peekString` of the lexer: is `s` at `line[pos:]`? -/
def Lexer.peekString (l : Lexer) (s : Str) : Bool :=
  decide (l.pos + s.length ≤ l.lineD.length) &&
    strSlice l.lineD l.pos (l.pos + s.length) == s

/-- The result of `readLine`: Go distinguishes the sentinel `io.EOF` from real
errors. -/
inductive RLErr where
  | eofE
  | errE (msg : String)

/-- The byte loop of `readLine`: split the stream at the first `'\n'`,
returning the line content, the remaining stream, and whether the stream ran
out before a newline was found. -/
def readRaw : Str → Str × Str × Bool
  | [] => ([], [], true)
  | c :: r =>
    if c = '\n' then ([], r, false)
    else
      let (content, rest, hitEof) := readRaw r
      (c :: content, rest, hitEof)

/-- `readLine` of `decode.go`: read the next line, set `lineNum`/`line`/`pos`,
and reject trailing spaces unless inside a multiline string.  Returns `io.EOF`
(`RLErr.eofE`) when the stream is exhausted with no data. -/
def Lexer.readLine (l : Lexer) : Except RLErr Unit × Lexer :=
  match readRaw l.rest with
  | (content, rest, hitEof) =>
    if hitEof ∧ content = [] then (.error .eofE, l)
    else
      let l' : Lexer := { l with
        rest := rest
        eof := if hitEof then true else l.eof
        lineNum := l.lineNum + 1
        line := some content
        pos := 0 }
      if ¬l.inMultilineStr ∧ content ≠ [] ∧ content.getLast? = some ' ' then
        (.error (.errE (lexErrorf l'.lineNum "trailing spaces are not allowed")), l')
      else
        (.ok (), l')

/-- `validateComment` of `decode.go` (pure: it inspects but does not move `pos`). -/
def Lexer.validateComment (l : Lexer) : Option String :=
  if l.pos < l.lineD.length ∧ l.at l.pos = '#' then
    if l.pos + 1 < l.lineD.length ∧ l.at (l.pos + 1) ≠ ' ' ∧ l.at (l.pos + 1) ≠ '\n' then
      some (lexErrorf l.lineNum "comment hash '#' must be followed by a space")
    else if l.lineD.length > 0 ∧ l.lineD.getLast? = some ' ' then
      some (lexErrorf l.lineNum "trailing spaces are not allowed")
    else none
  else none

/-- `validateRemaining` of `decode.go`: skip spaces, then demand end of line or
a valid comment. -/
def Lexer.validateRemaining (l : Lexer) : Option String × Lexer :=
  let spaceStart := l.pos
  let l := { l with pos := skipWhile (· == ' ') l.lineD l.pos }
  if l.pos ≥ l.lineD.length then
    if l.pos > spaceStart then
      (some (lexErrorf l.lineNum "trailing spaces are not allowed"), l)
    else (none, l)
  else if l.at l.pos = '#' then
    (l.validateComment, l)
  else
    (some (lexErrorf l.lineNum "unexpected content at end of line"), l)

/-- `consumeLine` of the lexer: validate the rest of the line (spaces /
comment) and drop the line. -/
def Lexer.consumeLine (l : Lexer) : Except String Lexer :=
  let spaceStart := l.pos
  let l := { l with pos := skipWhile (· == ' ') l.lineD l.pos }
  if l.pos ≥ l.lineD.length then
    if l.pos > spaceStart then
      .error (lexErrorf l.lineNum "trailing spaces are not allowed")
    else .ok { l with line := none }
  else if l.at l.pos = '#' then
    match l.validateComment with
    | some e => .error e
    | none => .ok { l with line := none }
  else .error (lexErrorf l.lineNum "unexpected content at end of line")

/-- `atEndOfLine` of the lexer: only spaces or a comment remain. -/
def Lexer.atEndOfLine (l : Lexer) : Bool :=
  let pos := skipWhile (· == ' ') l.lineD l.pos
  pos ≥ l.lineD.length || l.at pos == '#'

/-- `skipRequiredSpace` of the lexer: consume exactly one space. -/
def Lexer.skipRequiredSpace (l : Lexer) (context : String) : Except String Lexer :=
  if l.pos ≥ l.lineD.length ∨ l.at l.pos ≠ ' ' then
    .error (lexErrorf l.lineNum ("expected single space " ++ context))
  else
    let l := { l with pos := l.pos + 1 }
    if l.pos < l.lineD.length ∧ l.at l.pos = ' ' then
      .error (lexErrorf l.lineNum ("expected single space " ++ context ++ ", found multiple"))
    else .ok l

end Strm

end Huml

namespace Huml

instance : Inhabited Token := ⟨{}⟩

/-- Convenience for writing Go string literals of the embedding. -/
def gs (s : String) : Str := s.toList

namespace Strm

/-- The body loop of `scanQuotedString`, on the line suffix; returns the
unescaped value and the number of bytes consumed.  (The Go function first runs
a semantically identical escape-free fast path as an optimization; only the
general path is modelled.) -/
def scanQSAux (lineNum : Nat) : Str → Str → Except String (Str × Nat)
  | [], _ => .error (lexErrorf lineNum "unclosed string")
  | c :: r, buf =>
    if c = '"' then .ok (buf, 1)
    else if c = '\\' then
      match r with
      | [] => .error (lexErrorf lineNum "incomplete escape sequence")
      | esc :: r2 =>
        let app : Option Char :=
          if esc = '"' ∨ esc = '\\' ∨ esc = '/' then some esc
          else if esc = 'b' then some (Char.ofNat 8)
          else if esc = 'f' then some (Char.ofNat 12)
          else if esc = 'n' then some '\n'
          else if esc = 'r' then some (Char.ofNat 13)
          else if esc = 't' then some '\t'
          else if esc = 'v' then some (Char.ofNat 11)
          else none
        match app with
        | none =>
          .error (lexErrorf lineNum ("invalid escape character '\\" ++ String.singleton esc ++ "'"))
        | some ch =>
          match scanQSAux lineNum r2 (buf ++ [ch]) with
          | .error e => .error e
          | .ok (s, n) => .ok (s, n + 2)
    else
      match scanQSAux lineNum r (buf ++ [c]) with
      | .error e => .error e
      | .ok (s, n) => .ok (s, n + 1)

/-- The loop of `scanQuotedString`: `pos` starts just after the opening
quote; returns the value and the position just past the closing quote. -/
def scanQuotedStringLoop (line : Str) (lineNum : Nat) (pos : Nat) (buf : Str) :
    Except String (Str × Nat) :=
  match scanQSAux lineNum (line.drop pos) buf with
  | .error e => .error e
  | .ok (s, n) => .ok (s, pos + n)

/-- `scanQuotedString` of `decode.go`: consume the opening quote and scan the
string body, returning the unescaped value and advancing `pos`. -/
def Lexer.scanQuotedString (l : Lexer) : Except String (Str × Lexer) := do
  let (s, pos) ← scanQuotedStringLoop l.lineD l.lineNum (l.pos + 1) []
  return (s, { l with pos := pos })

/-- `scanKeyOrString` of `decode.go`: scan a quoted string, then classify it as
a quoted key if (after spaces) a `':'` follows. -/
def Lexer.scanKeyOrString (l : Lexer) : Except String (Token × Lexer) := do
  let startCol := l.pos
  let (str, l) ← l.scanQuotedString
  let l := { l with pos := skipWhile (· == ' ') l.lineD l.pos }
  if l.pos < l.lineD.length ∧ l.at l.pos = ':' then
    return ({ type := .quotedKey, value := str, line := l.lineNum, column := startCol,
              indent := l.curIndent }, l)
  else
    return ({ type := .string, value := str, line := l.lineNum, column := startCol,
              indent := l.curIndent }, l)

/-- `scanKeyOrKeyword` of `decode.go`: scan a bare identifier; classify as a
key when `':'` follows, else as one of the keywords, else fail. -/
def Lexer.scanKeyOrKeyword (l : Lexer) : Except String (Token × Lexer) :=
  let startCol := l.pos
  let start := l.pos
  let l := { l with
    pos := skipWhile (fun c => isAlphaNum c || c == '_' || c == '-') l.lineD l.pos }
  let wb := strSlice l.lineD start l.pos
  let l := { l with pos := skipWhile (· == ' ') l.lineD l.pos }
  if l.pos < l.lineD.length ∧ l.at l.pos = ':' then
    .ok ({ type := .key, value := wb, line := l.lineNum, column := startCol,
           indent := l.curIndent }, l)
  else
    let mk : TokenType → Str → Except String (Token × Lexer) := fun t v =>
      .ok ({ type := t, value := v, line := l.lineNum, column := startCol,
             indent := l.curIndent }, l)
    if wb = gs "true" then mk .bool (gs "true")
    else if wb = gs "false" then mk .bool (gs "false")
    else if wb = gs "null" then mk .null (gs "null")
    else if wb = gs "nan" then mk .nan (gs "nan")
    else if wb = gs "inf" then mk .inf (gs "+")
    else .error (lexErrorf l.lineNum
      ("unquoted string '" ++ String.mk wb ++ "' is not allowed"))

/-- The decimal loop of `scanNumber` on the line suffix: digits, `_`, any
number of `.` (each marking a float), `e`/`E` with an optional sign (marking a
float); returns the bytes consumed and the float flag. -/
def scanDecAux : Str → Bool → Nat × Bool
  | [], isFloat => (0, isFloat)
  | c :: r, isFloat =>
    if isDigit c || c == '_' then
      let (n, f) := scanDecAux r isFloat
      (n + 1, f)
    else if c = '.' then
      let (n, f) := scanDecAux r true
      (n + 1, f)
    else if c = 'e' ∨ c = 'E' then
      match r with
      | s :: r2 =>
        if s = '+' ∨ s = '-' then
          let (n, f) := scanDecAux r2 true
          (n + 2, f)
        else
          let (n, f) := scanDecAux (s :: r2) true
          (n + 1, f)
      | [] => (1, true)
    else (0, isFloat)

/-- The decimal loop of `scanNumber`, as final position and float flag. -/
def scanDecLoop (line : Str) (pos : Nat) (isFloat : Bool) : Nat × Bool :=
  let (n, f) := scanDecAux (line.drop pos) isFloat
  (pos + n, f)

/-- `scanBaseNumber` of `decode.go`: scan digits (and `_`) of a prefixed
integer literal. -/
def Lexer.scanBaseNumber (l : Lexer) (start startCol : Nat) (isValidDigit : Char → Bool) :
    Except String (Token × Lexer) :=
  let l := { l with pos := l.pos + 2 }
  let numStart := l.pos
  let l := { l with pos := skipWhile (fun c => isValidDigit c || c == '_') l.lineD l.pos }
  if l.pos = numStart then
    .error (lexErrorf l.lineNum "invalid number literal, requires digits after prefix")
  else
    .ok ({ type := .int, value := strSlice l.lineD start l.pos, line := l.lineNum,
           column := startCol, indent := l.curIndent }, l)

/-- `scanNumber` of `decode.go`. -/
def Lexer.scanNumber (l : Lexer) : Except String (Token × Lexer) :=
  let startCol := l.pos
  let start := l.pos
  let signRes : Except String Lexer :=
    if l.at l.pos = '+' ∨ l.at l.pos = '-' then
      let sign := l.at l.pos
      let l := { l with pos := l.pos + 1 }
      if l.peekString (gs "inf") then
        .error ""  -- handled below; placeholder never used
      else if l.pos ≥ l.lineD.length ∨ ¬ isDigit (l.at l.pos) then
        .error (lexErrorf l.lineNum ("invalid char after '" ++ String.singleton sign ++ "'"))
      else .ok l
    else .ok l
  -- The `+inf` / `-inf` early return of the sign branch:
  if (l.at l.pos = '+' ∨ l.at l.pos = '-') ∧
      Lexer.peekString { l with pos := l.pos + 1 } (gs "inf") then
    let sign := l.at l.pos
    let signStr : Str := if sign = '-' then gs "-" else gs "+"
    .ok ({ type := .inf, value := signStr, line := l.lineNum, column := startCol,
           indent := l.curIndent }, { l with pos := l.pos + 4 })
  else
    match signRes with
    | .error e => .error e
    | .ok l =>
      if l.at l.pos = '0' ∧ l.pos + 1 < l.lineD.length then
        if l.at (l.pos + 1) = 'x' ∨ l.at (l.pos + 1) = 'X' then
          l.scanBaseNumber start startCol isHex
        else if l.at (l.pos + 1) = 'o' ∨ l.at (l.pos + 1) = 'O' then
          l.scanBaseNumber start startCol isOctal
        else if l.at (l.pos + 1) = 'b' ∨ l.at (l.pos + 1) = 'B' then
          l.scanBaseNumber start startCol isBinary
        else
          let (pos, isFloat) := scanDecLoop l.lineD l.pos false
          let l := { l with pos := pos }
          .ok ({ type := if isFloat then .float else .int,
                 value := strSlice l.lineD start l.pos, line := l.lineNum,
                 column := startCol, indent := l.curIndent }, l)
      else
        let (pos, isFloat) := scanDecLoop l.lineD l.pos false
        let l := { l with pos := pos }
        .ok ({ type := if isFloat then .float else .int,
               value := strSlice l.lineD start l.pos, line := l.lineNum,
               column := startCol, indent := l.curIndent }, l)

end Strm

end Huml

namespace Huml

namespace Strm

/-- The EOF token `Token{Type: TokenEOF, Line: l.lineNum}`. -/
def eofTok (l : Lexer) : Token := { type := .eof, line := l.lineNum }

/-- The line loop of `scanMultilineString`: read content lines into `buf`
until the closing `"""` line. -/
def scanMLLoop (fuel : Nat) (l : Lexer) (startLine startCol keyIndent reqIndent : Nat)
    (buf : Str) : Except String (Token × Lexer) :=
  match fuel with
  | 0 => .error fuelErrMsg
  | fuel + 1 =>
    match l.readLine with
    | (.error .eofE, _) =>
      .error ("line " ++ Nat.repr startLine ++ ": unclosed multiline string")
    | (.error (.errE m), _) => .error m
    | (.ok _, l) =>
      let lineIndent := l.countIndent
      let l := { l with pos := lineIndent }
      if l.peekString (gs "\"\"\"") then
        if lineIndent ≠ keyIndent then
          .error (lexErrorf l.lineNum
            ("multiline closing delimiter must be at same indentation as the key (" ++
              Nat.repr keyIndent ++ " spaces)"))
        else
          let l := { l with pos := l.pos + 3 }
          match l.validateRemaining with
          | (some _, l) =>
            .error (lexErrorf l.lineNum "invalid content after multiline string closing delimiter")
          | (none, l) =>
            let l := { l with line := none, atLineStart := true, inMultilineStr := false }
            let result := if buf.getLast? = some '\n' then buf.dropLast else buf
            .ok ({ type := .string, value := result, line := startLine, column := startCol,
                   indent := keyIndent }, l)
      else
        let lineContent := l.lineD
        let lineContent :=
          if lineContent.length ≥ reqIndent ∧ isSpaceBytes (lineContent.take reqIndent)
          then lineContent.drop reqIndent else lineContent
        scanMLLoop fuel l startLine startCol keyIndent reqIndent (buf ++ lineContent ++ ['\n'])

/-- `scanMultilineString` of `decode.go` (v0.2.0 semantics): content lines have
the fixed `keyIndent + 2`-space prefix stripped when present; all other leading
and trailing spaces are preserved as content; the final accumulated newline is
trimmed.  `inMultilineStr` is set during the loop so `readLine` accepts
trailing spaces as content. -/
def Lexer.scanMultilineString (fuel : Nat) (l : Lexer) (keyIndent : Nat) :
    Except String (Token × Lexer) :=
  let startLine := l.lineNum
  let startCol := l.pos
  let l := { l with pos := l.pos + 3 }
  match l.validateRemaining with
  | (some e, _) => .error e
  | (none, l) =>
    let reqIndent := keyIndent + 2
    let l := { l with inMultilineStr := true }
    scanMLLoop fuel l startLine startCol keyIndent reqIndent []

mutual

/-- `scan` of `decode.go`: sticky error check, then the line-filling loop. -/
def scan (fuel : Nat) (l : Lexer) : Except String (Token × Lexer) :=
  match fuel with
  | 0 => .error fuelErrMsg
  | fuel + 1 =>
    match l.err with
    | some e => .error e
    | none => scanLoopA fuel l

/-- The first loop of `scan`: read lines until the current line has unread
content. -/
def scanLoopA (fuel : Nat) (l : Lexer) : Except String (Token × Lexer) :=
  match fuel with
  | 0 => .error fuelErrMsg
  | fuel + 1 =>
    if l.line = none ∨ l.pos ≥ l.lineD.length then
      if l.eof then .ok (eofTok l, l)
      else
        match l.readLine with
        | (.error .eofE, l) =>
          let l := { l with eof := true }
          .ok (eofTok l, l)
        | (.error (.errE m), _) => .error m
        | (.ok _, l) =>
          let ci := l.countIndent
          scanLoopA fuel { l with atLineStart := true, curIndent := ci, pos := ci }
    else scanLoopB fuel l

/-- The second loop of `scan`: skip comment-only lines, then dispatch to
`scanToken` (or back to `scan` when the line was consumed). -/
def scanLoopB (fuel : Nat) (l : Lexer) : Except String (Token × Lexer) :=
  match fuel with
  | 0 => .error fuelErrMsg
  | fuel + 1 =>
    if l.line ≠ none ∧ l.pos < l.lineD.length ∧ l.at l.pos = '#' then
      match l.validateComment with
      | some e => .error e
      | none =>
        if l.eof then .ok (eofTok l, l)
        else
          match l.readLine with
          | (.error .eofE, l) =>
            let l := { l with eof := true }
            .ok (eofTok l, l)
          | (.error (.errE m), _) => .error m
          | (.ok _, l) =>
            let ci := l.countIndent
            scanLoopB fuel { l with atLineStart := true, curIndent := ci, pos := ci }
    else
      if l.line = none ∨ l.pos ≥ l.lineD.length then
        if l.eof then .ok (eofTok l, l) else scan fuel l
      else scanToken fuel l

/-- `scanVersion` of `decode.go`: skip `%HUML`, an optional space and version
token, validate the remainder, drop the line, and scan on.  Note it does not
validate the version token itself. -/
def scanVersion (fuel : Nat) (l : Lexer) : Except String (Token × Lexer) :=
  match fuel with
  | 0 => .error fuelErrMsg
  | fuel + 1 =>
    let l := { l with pos := l.pos + (gs "%HUML").length }
    let l :=
      if l.pos < l.lineD.length ∧ l.at l.pos = ' ' then
        let l := { l with pos := l.pos + 1 }
        { l with pos := skipWhile (fun c => c != ' ' && c != '#') l.lineD l.pos }
      else l
    match l.validateRemaining with
    | (some e, _) => .error e
    | (none, l) => scan fuel { l with line := none }

/-- `scanToken` of `decode.go`: skip inter-token spaces then dispatch on the
first byte. -/
def scanToken (fuel : Nat) (l : Lexer) : Except String (Token × Lexer) :=
  match fuel with
  | 0 => .error fuelErrMsg
  | fuel + 1 =>
    let spaceEnd := skipWhile (· == ' ') l.lineD l.pos
    let l := { l with hadSpaceBefore := spaceEnd > l.pos, pos := spaceEnd }
    if l.pos ≥ l.lineD.length then
      if l.eof then .ok (eofTok l, l) else scan fuel l
    else
      let startCol := l.pos
      let c := l.at l.pos
      if l.lineNum = 1 ∧ l.pos = 0 ∧ l.peekString (gs "%HUML") then scanVersion fuel l
      else if c = '-' ∧ l.pos = l.curIndent ∧
          l.pos + 1 < l.lineD.length ∧ l.at (l.pos + 1) = ' ' then
        .ok ({ type := .listItem, line := l.lineNum, column := startCol,
               indent := l.curIndent }, { l with pos := l.pos + 2 })
      else if l.peekString (gs "[]") then
        .ok ({ type := .emptyList, line := l.lineNum, column := startCol,
               indent := l.curIndent }, { l with pos := l.pos + 2 })
      else if l.peekString (gs "{}") then
        .ok ({ type := .emptyDict, line := l.lineNum, column := startCol,
               indent := l.curIndent }, { l with pos := l.pos + 2 })
      else if c = '"' then
        if l.peekString (gs "\"\"\"") then
          .ok ({ type := .string, value := gs "\"\"\"", line := l.lineNum,
                 column := startCol, indent := l.curIndent }, l)
        else l.scanKeyOrString
      else if isAlpha c then l.scanKeyOrKeyword
      else if c = ':' then
        if l.pos + 1 < l.lineD.length ∧ l.at (l.pos + 1) = ':' then
          .ok ({ type := .vectorInd, line := l.lineNum, column := startCol,
                 indent := l.curIndent }, { l with pos := l.pos + 2 })
        else
          .ok ({ type := .scalarInd, line := l.lineNum, column := startCol,
                 indent := l.curIndent }, { l with pos := l.pos + 1 })
      else if c = ',' then
        .ok ({ type := .comma, line := l.lineNum, column := startCol,
               indent := l.curIndent, spaceBefore := l.hadSpaceBefore },
             { l with pos := l.pos + 1 })
      else if isDigit c || c == '+' || c == '-' then l.scanNumber
      else .error (lexErrorf l.lineNum
        ("unexpected character '" ++ String.singleton c ++ "'"))

end

/-- `next` of the lexer: pop a buffered token or scan. -/
def Lexer.next (fuel : Nat) (l : Lexer) : Except String (Token × Lexer) :=
  if l.tokPos < l.tokens.length then
    let tk := l.tokens.getD l.tokPos default
    let l := { l with tokPos := l.tokPos + 1 }
    let l := if l.tokPos = l.tokens.length then { l with tokens := [], tokPos := 0 } else l
    .ok (tk, l)
  else scan fuel l

/-- `peek` of the lexer: return the next token without consuming it, buffering
a freshly scanned one. -/
def Lexer.peek (fuel : Nat) (l : Lexer) : Except String (Token × Lexer) :=
  if l.tokPos < l.tokens.length then .ok (l.tokens.getD l.tokPos default, l)
  else
    match scan fuel l with
    | .error e => .error e
    | .ok (tok, l) => .ok (tok, { l with tokens := l.tokens ++ [tok] })

end Strm

end Huml

namespace Huml

/-- Lowercase hex digit. -/
def hexDigit (n : Nat) : Char :=
  if n < 10 then Char.ofNat ('0'.toNat + n) else Char.ofNat ('a'.toNat + n - 10)

/-- Model of `strconv.Quote` for one byte (ASCII range): the named Go escapes,
`\xHH` for other control bytes, the byte itself otherwise. -/
def quoteGoChar (c : Char) : Str :=
  if c = '"' then ['\\', '"']
  else if c = '\\' then ['\\', '\\']
  else if c = Char.ofNat 7 then ['\\', 'a']
  else if c = Char.ofNat 8 then ['\\', 'b']
  else if c = Char.ofNat 12 then ['\\', 'f']
  else if c = '\n' then ['\\', 'n']
  else if c = Char.ofNat 13 then ['\\', 'r']
  else if c = '\t' then ['\\', 't']
  else if c = Char.ofNat 11 then ['\\', 'v']
  else if c.toNat < 0x20 ∨ c.toNat = 0x7f then
    ['\\', 'x', hexDigit (c.toNat / 16), hexDigit (c.toNat % 16)]
  else [c]

/-- Model of `strconv.Quote` (ASCII inputs): quote and escape. -/
def quoteGo (s : Str) : Str := '"' :: (s.map quoteGoChar).flatten ++ ['"']

/-- `Token.String` of `token.go`. -/
def tokenString (t : Token) : String :=
  match t.type with
  | .eof => "EOF"
  | .error => "Error(" ++ String.mk t.value ++ ")"
  | .newline => "Newline(indent=" ++ Nat.repr t.indent ++ ")"
  | .key => "Key(" ++ String.mk t.value ++ ")"
  | .quotedKey => "QuotedKey(" ++ String.mk t.value ++ ")"
  | .scalarInd => ":"
  | .vectorInd => "::"
  | .string => "String(" ++ String.mk (quoteGo t.value) ++ ")"
  | .int => "Int(" ++ String.mk t.value ++ ")"
  | .float => "Float(" ++ String.mk t.value ++ ")"
  | .bool => "Bool(" ++ String.mk t.value ++ ")"
  | .null => "Null"
  | .nan => "NaN"
  | .inf => "Inf(" ++ String.mk t.value ++ ")"
  | .emptyList => "[]"
  | .emptyDict => "{}"
  | .listItem => "-"
  | .comma => ","

/-- `dataType` of `decode.go`. -/
inductive DataType where
  | scalar | emptyDict | inlineDict | multilineDict | emptyList | inlineList | multilineList
deriving DecidableEq, Repr

namespace Strm

/-- The digit loop of `streamParser.parseIntValue` (`huml.go`): accumulate
`val = val*base + digit` in Go `int64` arithmetic (two's-complement
wrap-around, no overflow check). -/
def parseIntDigits (base : Int) (s : Str) (val : Int) : Except String Int :=
  match s with
  | [] => .ok val
  | c :: rest =>
    if c = '_' then parseIntDigits base rest val
    else if '0' ≤ c ∧ c ≤ '9' then
      let digit : Int := c.toNat - '0'.toNat
      if digit ≥ base then
        .error ("invalid digit '" ++ String.singleton c ++ "' for base " ++
          Int.repr base)
      else parseIntDigits base rest (wrap64 (val * base + digit))
    else if 'a' ≤ c ∧ c ≤ 'f' then
      let digit : Int := c.toNat - 'a'.toNat + 10
      if digit ≥ base then
        .error ("invalid digit '" ++ String.singleton c ++ "' for base " ++
          Int.repr base)
      else parseIntDigits base rest (wrap64 (val * base + digit))
    else if 'A' ≤ c ∧ c ≤ 'F' then
      let digit : Int := c.toNat - 'A'.toNat + 10
      if digit ≥ base then
        .error ("invalid digit '" ++ String.singleton c ++ "' for base " ++
          Int.repr base)
      else parseIntDigits base rest (wrap64 (val * base + digit))
    else .error ("invalid digit '" ++ String.singleton c ++ "'")

/-- `streamParser.parseIntValue` of `huml.go`: sign, optional base prefix,
then the unchecked digit-accumulation loop. -/
def parseIntValue (s : Str) : Except String Int :=
  let (sign, s1) : Int × Str :=
    match s with
    | '+' :: rest => (1, rest)
    | '-' :: rest => (-1, rest)
    | _ => (1, s)
  let (base, s2) : Int × Str :=
    if s1.length > 2 then
      match s1 with
      | '0' :: 'x' :: rest => (16, rest)
      | '0' :: 'X' :: rest => (16, rest)
      | '0' :: 'o' :: rest => (8, rest)
      | '0' :: 'O' :: rest => (8, rest)
      | '0' :: 'b' :: rest => (2, rest)
      | '0' :: 'B' :: rest => (2, rest)
      | _ => (10, s1)
    else (10, s1)
  match parseIntDigits base s2 0 with
  | .error e => .error e
  | .ok val => .ok (wrap64 (sign * val))

/-- Value of a digit string in base 10. -/
def digitsVal (ds : Str) : Nat := ds.foldl (fun a c => a * 10 + (c.toNat - '0'.toNat)) 0

/-- Model of `strconv.ParseFloat(s, 64)` on Go decimal float syntax, returning
the exact rational value of the literal.  (Go rounds to the nearest IEEE
binary64 and reports huge values as a range error; the theorems below only
evaluate this on literals whose value is exactly representable, where the
models agree.) -/
def parseFloatGo (s : Str) : Except String ℚ :=
  let errRes : Except String ℚ := .error ("strconv.ParseFloat: parsing " ++
    String.mk (quoteGo s) ++ ": invalid syntax")
  let (sgn, s1) : ℚ × Str :=
    match s with
    | '+' :: rest => (1, rest)
    | '-' :: rest => (-1, rest)
    | _ => (1, s)
  let intPart := s1.takeWhile isDigit
  let s2 := s1.dropWhile isDigit
  let (frac, s3) : Str × Str :=
    match s2 with
    | '.' :: rest => (rest.takeWhile isDigit, rest.dropWhile isDigit)
    | _ => ([], s2)
  if intPart = [] ∧ frac = [] then errRes
  else
    let mant : ℚ := (digitsVal intPart : ℚ) + (digitsVal frac : ℚ) / 10 ^ frac.length
    match s3 with
    | [] => .ok (sgn * mant)
    | e :: rest =>
      if e = 'e' ∨ e = 'E' then
        let (esgn, rest2) : Int × Str :=
          match rest with
          | '+' :: r => (1, r)
          | '-' :: r => (-1, r)
          | _ => (1, rest)
        let edigits := rest2.takeWhile isDigit
        let rest3 := rest2.dropWhile isDigit
        if edigits = [] ∨ rest3 ≠ [] then errRes
        else .ok (sgn * mant * (10 : ℚ) ^ (esgn * (digitsVal edigits : Int)))
      else errRes

/-- `streamParser.parseFloatValue` of `huml.go`: strip underscores, then
`strconv.ParseFloat`. -/
def parseFloatValue (s : Str) : Except String ℚ :=
  parseFloatGo (if s.contains '_' then s.filter (· ≠ '_') else s)

/-- `isValueToken` of `huml.go`. -/
def isValueToken (t : TokenType) : Bool :=
  match t with
  | .string | .int | .float | .bool | .null | .nan | .inf => true
  | _ => false

/-- `streamParser.tokenToValue` of `huml.go`. -/
def tokenToValue (tok : Token) : Except String Value :=
  match tok.type with
  | .string => .ok (.str tok.value)
  | .int =>
    match parseIntValue tok.value with
    | .error e => .error e
    | .ok n => .ok (.int n)
  | .float =>
    match parseFloatValue tok.value with
    | .error e => .error e
    | .ok q => .ok (.float (.num q))
  | .bool => .ok (.bool (tok.value == gs "true"))
  | .null => .ok .null
  | .nan => .ok (.float .nan)
  | .inf => if tok.value = gs "-" then .ok (.float .negInf) else .ok (.float .inf)
  | .eof => .error "unexpected end of input, expected a value"
  | .error => .error (String.mk tok.value)
  | _ => .error ("line " ++ Nat.repr tok.line ++ ": unexpected token " ++
      tokenString tok ++ " when parsing value")

/-- `streamParser.hasVectorIndicatorAfterKey` of `huml.go`: scan the raw line
from the cursor for the first `':'` and test for `'::'` (the cursor is
restored, so this is pure). -/
def hasVectorIndicatorAfterKey (l : Lexer) : Bool :=
  let pos := skipWhile (fun c => c != ':') l.lineD l.pos
  decide (pos + 1 < l.lineD.length) && l.at pos == ':' && l.at (pos + 1) == ':'

/-- `streamParser.hasCommaOnLine` of `huml.go`: read-only scan of the rest of
the current line for a comma. -/
def hasCommaOnLine (l : Lexer) : Bool := (l.lineD.drop l.pos).any (· = ',')

/-- Go's `tk, _ := p.lexer.next()` where only the token is used: the error is
discarded.  On the (unreachable: the token is always buffered at these call
sites) error path Go would yield an error token; the model yields the default
token. -/
def Lexer.nextD (fuel : Nat) (l : Lexer) : Token × Lexer :=
  match Lexer.next fuel l with
  | .ok p => p
  | .error _ => (default, l)

/-- Go's bare `p.lexer.next()` with both results discarded. -/
def Lexer.nextDrop (fuel : Nat) (l : Lexer) : Lexer :=
  match Lexer.next fuel l with
  | .ok (_, l') => l'
  | .error _ => l

end Strm

end Huml

namespace Huml

namespace Strm

mutual

/-- `streamParser.parse` of `huml.go`: classify the root and dispatch. -/
def parse (fuel : Nat) (l : Lexer) : Except String (Value × Lexer) :=
  match fuel with
  | 0 => .error fuelErrMsg
  | fuel + 1 =>
    match Lexer.peek fuel l with
    | .error e => .error e
    | .ok (tk, l) =>
      if tk.type = .eof then .error "empty document is undefined"
      else if tk.indent ≠ 0 then
        .error ("line " ++ Nat.repr tk.line ++ ": root element must not be indented")
      else
        match inferRootType fuel l with
        | .error e => .error e
        | .ok (rootType, l) =>
          match rootType with
          | .scalar =>
            match parseRootScalar fuel l with
            | .error e => .error e
            | .ok (v, l) => assertRootEnd fuel l v "root scalar value"
          | .emptyList =>
            let l := Lexer.nextDrop fuel l
            match l.consumeLine with
            | .error e => .error e
            | .ok l => assertRootEnd fuel l (.list []) "root list"
          | .emptyDict =>
            let l := Lexer.nextDrop fuel l
            match l.consumeLine with
            | .error e => .error e
            | .ok l => assertRootEnd fuel l (.dict []) "root dict"
          | .multilineList =>
            match parseMultilineList fuel l 0 with
            | .error e => .error e
            | .ok (vs, l) => .ok (.list vs, l)
          | .multilineDict =>
            match parseMultilineDict fuel l 0 with
            | .error e => .error e
            | .ok (es, l) => .ok (.dict es, l)
          | .inlineList =>
            match parseInlineList fuel l with
            | .error e => .error e
            | .ok (vs, l) =>
              match l.consumeLine with
              | .error e => .error e
              | .ok l => assertRootEnd fuel l (.list vs) "root inline list"
          | .inlineDict =>
            match parseInlineDict fuel l with
            | .error e => .error e
            | .ok (es, l) =>
              match l.consumeLine with
              | .error e => .error e
              | .ok l => assertRootEnd fuel l (.dict es) "root inline dict"

/-- `streamParser.parseRootScalar` of `huml.go`. -/
def parseRootScalar (fuel : Nat) (l : Lexer) : Except String (Value × Lexer) :=
  match fuel with
  | 0 => .error fuelErrMsg
  | fuel + 1 =>
    match Lexer.peek fuel l with
    | .error e => .error e
    | .ok (tk, l) =>
      if tk.type = .string ∧ tk.value = gs "\"\"\"" then
        let l := Lexer.nextDrop fuel l
        match Lexer.scanMultilineString fuel l 0 with
        | .error e => .error e
        | .ok (mlTk, l) => .ok (.str mlTk.value, l)
      else
        match parseInlineValue fuel l with
        | .error e => .error e
        | .ok (v, l) =>
          match l.consumeLine with
          | .error e => .error e
          | .ok l => .ok (v, l)

/-- `streamParser.inferRootType` of `huml.go`. -/
def inferRootType (fuel : Nat) (l : Lexer) : Except String (DataType × Lexer) :=
  match fuel with
  | 0 => .error fuelErrMsg
  | fuel + 1 =>
    match Lexer.peek fuel l with
    | .error e => .error e
    | .ok (tk, l) =>
      if tk.type = .emptyList then .ok (.emptyList, l)
      else if tk.type = .emptyDict then .ok (.emptyDict, l)
      else if tk.type = .listItem then .ok (.multilineList, l)
      else if tk.type = .key ∨ tk.type = .quotedKey then
        if hasVectorIndicatorAfterKey l then .ok (.multilineDict, l)
        else if hasCommaOnLine l then .ok (.inlineDict, l)
        else .ok (.multilineDict, l)
      else if isValueToken tk.type || tk.type == .string then
        if hasCommaOnLine l then .ok (.inlineList, l)
        else .ok (.scalar, l)
      else .ok (.scalar, l)

/-- `streamParser.assertRootEnd` of `huml.go`. -/
def assertRootEnd (fuel : Nat) (l : Lexer) (val : Value) (description : String) :
    Except String (Value × Lexer) :=
  match fuel with
  | 0 => .error fuelErrMsg
  | fuel + 1 =>
    match Lexer.peek fuel l with
    | .error e => .error e
    | .ok (tk, l) =>
      if tk.type ≠ .eof then
        .error ("line " ++ Nat.repr tk.line ++ ": unexpected content after " ++ description)
      else .ok (val, l)

/-- The entry loop of `streamParser.parseMultilineDict` of `huml.go`, with the
accumulated map `out` (an insertion-ordered association list). -/
def parseMultilineDictLoop (fuel : Nat) (l : Lexer) (indent : Nat)
    (out : List (Str × Value)) : Except String (List (Str × Value) × Lexer) :=
  match fuel with
  | 0 => .error fuelErrMsg
  | fuel + 1 =>
    match Lexer.peek fuel l with
    | .error e => .error e
    | .ok (tk, l) =>
      if tk.type = .eof then .ok (out, l)
      else if tk.indent < indent then .ok (out, l)
      else if tk.indent ≠ indent then
        .error ("line " ++ Nat.repr tk.line ++ ": bad indent " ++ Nat.repr tk.indent ++
          ", expected " ++ Nat.repr indent)
      else if tk.type ≠ .key ∧ tk.type ≠ .quotedKey then
        .error ("line " ++ Nat.repr tk.line ++ ": invalid character, expected key")
      else
        let (keyTk, l) := Lexer.nextD fuel l
        let key := keyTk.value
        if out.any (fun e => e.1 == key) then
          .error ("line " ++ Nat.repr keyTk.line ++ ": duplicate key '" ++
            String.mk key ++ "' in dict")
        else
          match Lexer.next fuel l with
          | .error e => .error e
          | .ok (indTk, l) =>
            match indTk.type with
            | .scalarInd =>
              match l.skipRequiredSpace "after ':'" with
              | .error e => .error e
              | .ok l =>
                match parseScalarValue fuel l indent with
                | .error e => .error e
                | .ok (val, l) =>
                  parseMultilineDictLoop fuel l indent (out ++ [(key, val)])
            | .vectorInd =>
              match parseVector fuel l (indent + 2) with
              | .error e => .error e
              | .ok (val, l) =>
                parseMultilineDictLoop fuel l indent (out ++ [(key, val)])
            | _ =>
              .error ("line " ++ Nat.repr indTk.line ++ ": expected ':' or '::' after key")
termination_by structural fuel

/-- `streamParser.parseMultilineDict` of `huml.go`. -/
def parseMultilineDict (fuel : Nat) (l : Lexer) (indent : Nat) :
    Except String (List (Str × Value) × Lexer) :=
  match fuel with
  | 0 => .error fuelErrMsg
  | fuel + 1 => parseMultilineDictLoop fuel l indent []
termination_by structural fuel

/-- The item loop of `streamParser.parseMultilineList` of `huml.go`. -/
def parseMultilineListLoop (fuel : Nat) (l : Lexer) (indent : Nat) (out : List Value) :
    Except String (List Value × Lexer) :=
  match fuel with
  | 0 => .error fuelErrMsg
  | fuel + 1 =>
    match Lexer.peek fuel l with
    | .error e => .error e
    | .ok (tk, l) =>
      if tk.type = .eof then .ok (out, l)
      else if tk.indent < indent then .ok (out, l)
      else if tk.indent ≠ indent then
        .error ("line " ++ Nat.repr tk.line ++ ": bad indent " ++ Nat.repr tk.indent ++
          ", expected " ++ Nat.repr indent)
      else if tk.type ≠ .listItem then .ok (out, l)
      else
        let l := Lexer.nextDrop fuel l
        match Lexer.peek fuel l with
        | .error e => .error e
        | .ok (nextTk, l) =>
          if nextTk.type = .vectorInd then
            let l := Lexer.nextDrop fuel l
            match parseVector fuel l (indent + 2) with
            | .error e => .error e
            | .ok (val, l) => parseMultilineListLoop fuel l indent (out ++ [val])
          else
            match parseListItemValue fuel l indent with
            | .error e => .error e
            | .ok (val, l) => parseMultilineListLoop fuel l indent (out ++ [val])
termination_by structural fuel

/-- `streamParser.parseMultilineList` of `huml.go`. -/
def parseMultilineList (fuel : Nat) (l : Lexer) (indent : Nat) :
    Except String (List Value × Lexer) :=
  match fuel with
  | 0 => .error fuelErrMsg
  | fuel + 1 => parseMultilineListLoop fuel l indent []
termination_by structural fuel

/-- `streamParser.parseListItemValue` of `huml.go`. -/
def parseListItemValue (fuel : Nat) (l : Lexer) (indent : Nat) :
    Except String (Value × Lexer) :=
  match fuel with
  | 0 => .error fuelErrMsg
  | fuel + 1 =>
    match Lexer.peek fuel l with
    | .error e => .error e
    | .ok (tk, l) =>
      if tk.type = .string ∧ tk.value = gs "\"\"\"" then
        let l := Lexer.nextDrop fuel l
        match Lexer.scanMultilineString fuel l indent with
        | .error e => .error e
        | .ok (mlTk, l) => .ok (.str mlTk.value, l)
      else
        match parseInlineValue fuel l with
        | .error e => .error e
        | .ok (v, l) =>
          match l.consumeLine with
          | .error e => .error e
          | .ok l => .ok (v, l)

/-- `streamParser.parseVector` of `huml.go`: multiline when at end of line,
inline otherwise. -/
def parseVector (fuel : Nat) (l : Lexer) (indent : Nat) : Except String (Value × Lexer) :=
  match fuel with
  | 0 => .error fuelErrMsg
  | fuel + 1 =>
    if l.atEndOfLine then
      match l.consumeLine with
      | .error e => .error e
      | .ok l =>
        match Lexer.peek fuel l with
        | .error e => .error e
        | .ok (tk, l) =>
          if tk.type = .eof ∨ tk.indent < indent then
            .error ("line " ++ Nat.repr tk.line ++
              ": ambiguous empty vector after '::'. Use [] or {}.")
          else if tk.type = .listItem then
            match parseMultilineList fuel l indent with
            | .error e => .error e
            | .ok (vs, l) => .ok (.list vs, l)
          else
            match parseMultilineDict fuel l indent with
            | .error e => .error e
            | .ok (es, l) => .ok (.dict es, l)
    else
      match l.skipRequiredSpace "after '::'" with
      | .error e => .error e
      | .ok l => parseInlineVectorValue fuel l
termination_by structural fuel

/-- `streamParser.parseInlineVectorValue` of `huml.go`. -/
def parseInlineVectorValue (fuel : Nat) (l : Lexer) : Except String (Value × Lexer) :=
  match fuel with
  | 0 => .error fuelErrMsg
  | fuel + 1 =>
    match Lexer.peek fuel l with
    | .error e => .error e
    | .ok (tk, l) =>
      let valRes : Except String (Value × Lexer) :=
        match tk.type with
        | .emptyList => .ok (.list [], Lexer.nextDrop fuel l)
        | .emptyDict => .ok (.dict [], Lexer.nextDrop fuel l)
        | .key | .quotedKey =>
          match parseInlineDict fuel l with
          | .error e => .error e
          | .ok (es, l) => .ok (.dict es, l)
        | _ =>
          match parseInlineList fuel l with
          | .error e => .error e
          | .ok (vs, l) => .ok (.list vs, l)
      match valRes with
      | .error e => .error e
      | .ok (val, l) =>
        match l.consumeLine with
        | .error e => .error e
        | .ok l => .ok (val, l)

/-- The pair loop of `streamParser.parseInlineDict` of `huml.go`. -/
def parseInlineDictLoop (fuel : Nat) (l : Lexer) (isFirst : Bool)
    (out : List (Str × Value)) : Except String (List (Str × Value) × Lexer) :=
  match fuel with
  | 0 => .error fuelErrMsg
  | fuel + 1 =>
    if l.atEndOfLine then .ok (out, l)
    else
      match Lexer.peek fuel l with
      | .error e => .error e
      | .ok (tk, l) =>
        if tk.type = .eof then .ok (out, l)
        else
          let sepRes : Except String (Option (Token × Lexer)) :=
            if ¬isFirst then
              if tk.type ≠ .comma then .ok none
              else if tk.spaceBefore then
                .error (lexErrorf l.lineNum "no spaces allowed before comma")
              else
                let l := Lexer.nextDrop fuel l
                match l.skipRequiredSpace "after comma" with
                | .error e => .error e
                | .ok l =>
                  match Lexer.peek fuel l with
                  | .error e => .error e
                  | .ok (tk, l) => .ok (some (tk, l))
            else .ok (some (tk, l))
          match sepRes with
          | .error e => .error e
          | .ok none => .ok (out, l)
          | .ok (some (tk, l)) =>
            if tk.type ≠ .key ∧ tk.type ≠ .quotedKey then
              .error ("line " ++ Nat.repr tk.line ++ ": expected key in inline dict")
            else
              let (keyTk, l) := Lexer.nextD fuel l
              let key := keyTk.value
              if out.any (fun e => e.1 == key) then
                .error ("line " ++ Nat.repr keyTk.line ++ ": duplicate key '" ++
                  String.mk key ++ "' in dict")
              else
                match Lexer.next fuel l with
                | .error e => .error e
                | .ok (indTk, l) =>
                  if indTk.type ≠ .scalarInd then
                    .error ("line " ++ Nat.repr indTk.line ++ ": expected ':' in inline dict")
                  else
                    match l.skipRequiredSpace "in inline dict" with
                    | .error e => .error e
                    | .ok l =>
                      match parseInlineValue fuel l with
                      | .error e => .error e
                      | .ok (val, l) =>
                        parseInlineDictLoop fuel l false (out ++ [(key, val)])
termination_by structural fuel

/-- `streamParser.parseInlineDict` of `huml.go`. -/
def parseInlineDict (fuel : Nat) (l : Lexer) :
    Except String (List (Str × Value) × Lexer) :=
  match fuel with
  | 0 => .error fuelErrMsg
  | fuel + 1 => parseInlineDictLoop fuel l true []

/-- The item loop of `streamParser.parseInlineList` of `huml.go`. -/
def parseInlineListLoop (fuel : Nat) (l : Lexer) (isFirst : Bool) (out : List Value) :
    Except String (List Value × Lexer) :=
  match fuel with
  | 0 => .error fuelErrMsg
  | fuel + 1 =>
    if l.atEndOfLine then .ok (out, l)
    else
      match Lexer.peek fuel l with
      | .error e => .error e
      | .ok (tk, l) =>
        if tk.type = .eof then .ok (out, l)
        else
          let sepRes : Except String (Option Lexer) :=
            if ¬isFirst then
              if tk.type ≠ .comma then .ok none
              else if tk.spaceBefore then
                .error (lexErrorf l.lineNum "no spaces allowed before comma")
              else
                let l := Lexer.nextDrop fuel l
                match l.skipRequiredSpace "after comma" with
                | .error e => .error e
                | .ok l => .ok (some l)
            else .ok (some l)
          match sepRes with
          | .error e => .error e
          | .ok none => .ok (out, l)
          | .ok (some l) =>
            match parseInlineValue fuel l with
            | .error e => .error e
            | .ok (val, l) => parseInlineListLoop fuel l false (out ++ [val])
termination_by structural fuel

/-- `streamParser.parseInlineList` of `huml.go`. -/
def parseInlineList (fuel : Nat) (l : Lexer) : Except String (List Value × Lexer) :=
  match fuel with
  | 0 => .error fuelErrMsg
  | fuel + 1 => parseInlineListLoop fuel l true []

/-- `streamParser.parseInlineValue` of `huml.go`. -/
def parseInlineValue (fuel : Nat) (l : Lexer) : Except String (Value × Lexer) :=
  match fuel with
  | 0 => .error fuelErrMsg
  | fuel + 1 =>
    match Lexer.next fuel l with
    | .error e => .error e
    | .ok (tk, l) =>
      match tokenToValue tk with
      | .error e => .error e
      | .ok v => .ok (v, l)

/-- `streamParser.parseScalarValue` of `huml.go`. -/
def parseScalarValue (fuel : Nat) (l : Lexer) (keyIndent : Nat) :
    Except String (Value × Lexer) :=
  match fuel with
  | 0 => .error fuelErrMsg
  | fuel + 1 =>
    match Lexer.peek fuel l with
    | .error e => .error e
    | .ok (tk, l) =>
      if tk.type = .string ∧ tk.value = gs "\"\"\"" then
        let l := Lexer.nextDrop fuel l
        match Lexer.scanMultilineString fuel l keyIndent with
        | .error e => .error e
        | .ok (mlTk, l) => .ok (.str mlTk.value, l)
      else
        match parseInlineValue fuel l with
        | .error e => .error e
        | .ok (v, l) =>
          match l.consumeLine with
          | .error e => .error e
          | .ok l => .ok (v, l)


end

/-- The streaming `Unmarshal` of `decode.go`: reject empty input, then run the
stream parser (`NewDecoder(bytes.NewReader(data)).Decode`).  The `fuel`
argument instruments the embedding's loops; the Go code has no counterpart
and terminates on its own. -/
def Unmarshal (fuel : Nat) (data : Str) : Except String Value :=
  if data.length = 0 then .error "empty document is undefined"
  else
    match parse fuel (newLexer data) with
    | .error e => .error e
    | .ok (v, _) => .ok v

end Strm

end Huml

namespace Huml

/-! ## The encoder (`Marshal` / `Encoder` / `state` of the encoder file),
namespace `Enc`.  The Go functions walk `reflect.Value`s; on the parser's
value domain (`Value`) the reflection cases map one-to-one onto the `Value`
constructors (`indirect` is the identity: the domain has no pointers or
interfaces, so the unsupported-kind and depth-bound error paths are
unreachable and the functions are total). -/

namespace Enc

/-- Split at newlines, as `strings.Split(str, "\n")`. -/
def splitNL : Str → List Str
  | [] => [[]]
  | c :: r =>
    if c = '\n' then [] :: splitNL r
    else
      match splitNL r with
      | h :: t => (c :: h) :: t
      | [] => [[c]]

/-- `bareKeyRegex.MatchString`: `^[a-zA-Z0-9_-]+$`. -/
def bareKeyMatch (key : Str) : Bool :=
  !key.isEmpty && key.all (fun c => isAlphaNum c || c == '_' || c == '-')

/-- `quoteKeyIfNeeded` of the encoder. -/
def quoteKeyIfNeeded (key : Str) : Str :=
  if bareKeyMatch key then key else quoteGo key

/-- Model of `strconv.FormatFloat(f, 'g', -1, 64)` restricted to the values the
theorems use: an integral float of magnitude below `10^21` prints as its
decimal digits (the `%f`-style branch of `'g'`).  Go's shortest-decimal
algorithm for non-integral values is not modelled; no theorem below evaluates
this branch, which returns `[]`. -/
def formatFloatG (q : ℚ) : Str :=
  if q.den = 1 ∧ q.num.natAbs < 10 ^ 21 then intToStr q.num else []

/-- The float branch of `state.marshalValue`: `nan` / `inf` / `-inf` /
`FormatFloat 'g'`. -/
def formatFloat : GFloat → Str
  | .nan => gs "nan"
  | .inf => gs "inf"
  | .negInf => gs "-inf"
  | .num q => formatFloatG q

/-- `marshalString` of the encoder: strings with a newline become a
`` ``` ``-delimited block (content lines at `indent+2`, a trailing empty line
dropped), all others a quoted string. -/
def marshalString (str : Str) (indent : Nat) : Str :=
  if str.contains '\n' then
    let lines := splitNL str
    let lines := if lines.getLast? = some [] then lines.dropLast else lines
    gs "```\n" ++
      (lines.map (fun line => List.replicate (indent + 2) ' ' ++ line ++ ['\n'])).flatten ++
      List.replicate indent ' ' ++ gs "```"
  else quoteGo str

/-- Is a value a vector (Go kind map/struct/slice/array)? Used by
`marshalSlice` and `writeKVPair` to choose the indicator. -/
def isVectorValue : Value → Bool
  | .dict _ => true
  | .list _ => true
  | _ => false

/-- Is a vector value empty (`Len() == 0` / a struct without marshallable
fields)? -/
def isEmptyVector : Value → Bool
  | .dict es => es.isEmpty
  | .list xs => xs.isEmpty
  | _ => false

/-- The key order of `marshalMap`: `sort.Slice(keys, keys[i] < keys[j])`.
Go map keys are unique, so any comparison sort yields the same list;
a merge sort by the byte-wise `<` models it. -/
def sortEntries (es : List (Str × Value)) : List (Str × Value) :=
  es.mergeSort (fun a b => !strLt b.1 a.1)

/-- Permutations preserve `sizeOf` (termination helper for the encoder). -/
theorem perm_sizeOf_eq {α : Type _} [SizeOf α] {l₁ l₂ : List α} (h : l₁.Perm l₂) :
    sizeOf l₁ = sizeOf l₂ := by
  induction h with
  | nil => rfl
  | cons a _ ih => simp [ih]
  | swap a b l => simp; omega
  | trans _ _ ih₁ ih₂ => exact ih₁.trans ih₂

/-- `sizeOf` bound for sorted entry lists (termination helper). -/
theorem sizeOf_sortEntries (es : List (Str × Value)) :
    sizeOf (sortEntries es) = sizeOf es :=
  perm_sizeOf_eq (List.mergeSort_perm es _)

mutual

/-- `state.marshalValue` of the encoder, on the parser's value domain. -/
def marshalValue (v : Value) (indent : Nat) : Str :=
  match v with
  | .null => gs "null"
  | .dict es => marshalMap es indent
  | .list xs => marshalSlice xs indent
  | .str s => marshalString s indent
  | .int n => intToStr n
  | .float f => formatFloat f
  | .bool b => if b then gs "true" else gs "false"
termination_by 4 * sizeOf v + 2
decreasing_by all_goals simp_all; omega

/-- `state.marshalMap` of the encoder: empty marker, or the entries sorted by
key, one `writeKVPair` per entry, separated by newlines. -/
def marshalMap (es : List (Str × Value)) (indent : Nat) : Str :=
  if es.isEmpty then gs "{}"
  else mapEntries (sortEntries es) indent true
termination_by 4 * sizeOf es + 1
decreasing_by all_goals (simp_all [sizeOf_sortEntries]; try omega)

/-- The entry loop of `marshalMap` (`for i, key := range keys`): a newline
before every entry but the first. -/
def mapEntries (es : List (Str × Value)) (indent : Nat) (first : Bool) : Str :=
  match es with
  | [] => []
  | (k, v) :: rest =>
    (if first then [] else ['\n']) ++ writeKVPair k v indent ++ mapEntries rest indent false
termination_by 4 * sizeOf es
decreasing_by all_goals (simp_all; try omega)

/-- `state.writeKVPair` of the encoder. -/
def writeKVPair (key : Str) (val : Value) (indent : Nat) : Str :=
  List.replicate indent ' ' ++ quoteKeyIfNeeded key ++
    (if isVectorValue val then
      if isEmptyVector val then gs ":: " else gs "::\n"
    else gs ": ") ++
    marshalValue val (indent + 2)
termination_by 4 * sizeOf val + 3
decreasing_by all_goals (simp_all; try omega)

/-- `state.marshalSlice` of the encoder: empty marker, or one `- ` item per
element (nested vectors as `- ::` blocks), separated by newlines. -/
def marshalSlice (xs : List Value) (indent : Nat) : Str :=
  if xs.isEmpty then gs "[]"
  else sliceItems xs indent true
termination_by 4 * sizeOf xs + 1
decreasing_by all_goals (simp_all; try omega)

/-- The element loop of `marshalSlice`. -/
def sliceItems (xs : List Value) (indent : Nat) (first : Bool) : Str :=
  match xs with
  | [] => []
  | elem :: rest =>
    (if first then [] else ['\n']) ++
      List.replicate indent ' ' ++ gs "- " ++
      (if isVectorValue elem then gs "::\n" ++ marshalValue elem (indent + 2)
       else marshalValue elem indent) ++
      sliceItems rest indent false
termination_by 4 * sizeOf xs
decreasing_by all_goals simp_all; all_goals omega

end

/-- `Marshal` of the encoder: the `%HUML v0.1.0` header, the encoded value,
and the final newline written by `Encoder.Encode`. -/
def Marshal (v : Value) : Str :=
  gs "%HUML v0.1.0\n" ++ marshalValue v 0 ++ gs "\n"

end Enc

end Huml

namespace Huml

/-! ## The byte-buffer parser (`decode.go`, `parser` methods), namespace
`Buf`.  This is the earlier, buffer-walking iteration of the decoder that the
same file also contains; it differs from the streaming parser in checking the
`%HUML` version token and in trimming `"""` multiline strings. -/

namespace Buf

/-- The `parser` struct of `decode.go`. -/
structure BP where
  data : Str
  pos : Nat := 0
  line : Nat := 1

/-- Go `p.data[i]` (uses are guarded as in Go). -/
def BP.at (p : BP) (i : Nat) : Char := p.data.getD i (Char.ofNat 0)

/-- `done` of the parser. -/
def BP.done (p : BP) : Bool := p.pos ≥ p.data.length

/-- `advance`. -/
def BP.advance (p : BP) (n : Nat) : BP := { p with pos := p.pos + n }

/-- `skipSpaces`. -/
def BP.skipSpaces (p : BP) : BP := { p with pos := Strm.skipWhile (· == ' ') p.data p.pos }

/-- `peekString`. -/
def BP.peekString (p : BP) (s : Str) : Bool :=
  decide (p.pos + s.length ≤ p.data.length) &&
    Strm.strSlice p.data p.pos (p.pos + s.length) == s

/-- `peekChar` (0 out of range). -/
def BP.peekChar (p : BP) (pos : Nat) : Char :=
  if pos ≥ p.data.length then Char.ofNat 0 else p.at pos

/-- `errorf` of the parser. -/
def BP.errorf (p : BP) (msg : String) : String :=
  "line " ++ Nat.repr p.line ++ ": " ++ msg

/-- The backward walk of `lineStart`. -/
def lineStartGo (data : Str) : Nat → Nat
  | 0 => 0
  | s + 1 => if data.getD s (Char.ofNat 0) ≠ '\n' then lineStartGo data s else s + 1

/-- `lineStart` of the parser. -/
def BP.lineStart (p : BP) : Nat :=
  let start := p.pos
  if start > 0 ∧ start ≤ p.data.length ∧ p.data.getD (start - 1) (Char.ofNat 0) = '\n' then start
  else lineStartGo p.data start

/-- `getCurIndent` of the parser: leading spaces of the current line. -/
def BP.getCurIndent (p : BP) : Nat :=
  Strm.skipWhile (· == ' ') p.data p.lineStart - p.lineStart

/-- `isKeyStart` of this parser (note: unlike the streaming lexer's bare keys,
no leading `_`). -/
def BP.isKeyStart (p : BP) : Bool :=
  !p.done && (p.at p.pos == '"' || isAlpha (p.at p.pos))

/-- `assertSpace`: consume exactly one space.  Returned with the mutated state
because one caller (`parseMultilineList`, after `'-'`) discards the error. -/
def BP.assertSpace (p : BP) (context : String) : Option String × BP :=
  if p.done ∨ p.at p.pos ≠ ' ' then
    (some (p.errorf ("expected single space " ++ context)), p)
  else
    let p := p.advance 1
    if ¬p.done ∧ p.at p.pos = ' ' then
      (some (p.errorf ("expected single space " ++ context ++ ", found multiple")), p)
    else (none, p)

/-- `expectComma`: a comma with no space before and exactly one after. -/
def BP.expectComma (p : BP) : Option String × BP :=
  let p := p.skipSpaces
  if p.done ∨ p.at p.pos ≠ ',' then
    (some (p.errorf "expected a comma in inline collection"), p)
  else if p.pos > 0 ∧ p.at (p.pos - 1) = ' ' then
    (some (p.errorf "no spaces allowed before comma"), p)
  else
    (p.advance 1).assertSpace "after comma"

/-- `consumeLine` of the parser: validate trailing spaces / comment syntax,
then consume up to and including the newline. -/
def BP.consumeLine (p : BP) : Except String BP :=
  let contentStartPos := p.pos
  let p := p.skipSpaces
  let headCheck : Option String :=
    if p.done ∨ p.at p.pos = '\n' then
      if p.pos > contentStartPos then some (p.errorf "trailing spaces are not allowed")
      else none
    else if p.at p.pos = '#' then
      if p.pos = contentStartPos ∧ p.getCurIndent ≠ p.pos - p.lineStart then
        some (p.errorf "a value must be separated from an inline comment by a space")
      else none
    else some (p.errorf "unexpected content at end of line")
  match headCheck with
  | some e => .error e
  | none =>
    -- the '#'-consumption step of the comment branch
    let hashStep : Option String × BP :=
      if ¬(p.done ∨ p.at p.pos = '\n') ∧ p.at p.pos = '#' then
        let p := { p with pos := p.pos + 1 }
        if ¬p.done ∧ p.at p.pos ≠ ' ' ∧ p.at p.pos ≠ '\n' then
          (some (p.errorf "comment hash '#' must be followed by a space"), p)
        else (none, p)
      else (none, p)
    match hashStep with
    | (some e, _) => .error e
    | (none, p) =>
      let commentEndPos := p.pos
      let p := { p with pos := Strm.skipWhile (fun c => c != '\n') p.data p.pos }
      if p.pos > 0 ∧ p.at (p.pos - 1) = ' ' ∧ p.pos - 1 > commentEndPos then
        .error (p.errorf "trailing spaces are not allowed")
      else
        if ¬p.done ∧ p.at p.pos = '\n' then
          .ok { p with pos := p.pos + 1, line := p.line + 1 }
        else .ok p

/-- `consumeLineContent`: the rest of the line, unvalidated (multiline string
content). -/
def BP.consumeLineContent (p : BP) : Str × BP :=
  let start := p.pos
  let p := { p with pos := Strm.skipWhile (fun c => c != '\n') p.data p.pos }
  let content := Strm.strSlice p.data start p.pos
  if ¬p.done ∧ p.at p.pos = '\n' then
    (content, { p with pos := p.pos + 1, line := p.line + 1 })
  else (content, p)

/-- `skipBlankLines`: consume blank and comment-only lines, validating them. -/
def BP.skipBlankLines (fuel : Nat) (p : BP) : Except String BP :=
  match fuel with
  | 0 => .error fuelErrMsg
  | fuel + 1 =>
    if p.done then .ok p
    else
      let lineStart := p.pos
      let p1 := p.skipSpaces
      if p1.done then
        if p1.pos > lineStart then .error (p1.errorf "trailing spaces are not allowed")
        else .ok p1
      else if p1.at p1.pos ≠ '\n' ∧ p1.at p1.pos ≠ '#' then .ok p1
      else if p1.at p1.pos = '\n' ∧ p1.pos > lineStart then
        .error (p1.errorf "trailing spaces are not allowed")
      else
        match BP.consumeLine { p1 with pos := lineStart } with
        | .error e => .error e
        | .ok p2 => BP.skipBlankLines fuel p2

/-- The string-body loop of `parseString`, on the data suffix; returns the
value and the bytes consumed.  (Escapes: `\" \\ \/ \f \n \r \t \v`; a bare
newline is a hard error.) -/
def parseStringAux (lineNum : Nat) : Str → Str → Except String (Str × Nat)
  | [], _ => .error (Strm.lexErrorf lineNum "unclosed string")
  | c :: r, buf =>
    if c = '"' then .ok (buf, 1)
    else if c = '\n' then
      .error (Strm.lexErrorf lineNum "newlines not allowed in single-line strings")
    else if c = '\\' then
      match r with
      | [] => .error (Strm.lexErrorf lineNum "incomplete escape sequence")
      | esc :: r2 =>
        let app : Option Char :=
          if esc = '"' ∨ esc = '\\' ∨ esc = '/' then some esc
          else if esc = 'f' then some (Char.ofNat 12)
          else if esc = 'n' then some '\n'
          else if esc = 'r' then some (Char.ofNat 13)
          else if esc = 't' then some '\t'
          else if esc = 'v' then some (Char.ofNat 11)
          else none
        match app with
        | none =>
          .error (Strm.lexErrorf lineNum ("invalid escape character '\\" ++ String.singleton esc ++ "'"))
        | some ch =>
          match parseStringAux lineNum r2 (buf ++ [ch]) with
          | .error e => .error e
          | .ok (s, n) => .ok (s, n + 2)
    else
      match parseStringAux lineNum r (buf ++ [c]) with
      | .error e => .error e
      | .ok (s, n) => .ok (s, n + 1)

/-- The string-body loop of `parseString`. -/
def parseStringLoop (p : BP) (buf : Str) : Except String (Str × BP) :=
  match parseStringAux p.line (p.data.drop p.pos) buf with
  | .error e => .error e
  | .ok (s, n) => .ok (s, { p with pos := p.pos + n })

/-- `parseString` of the parser. -/
def BP.parseString (p : BP) : Except String (Str × BP) :=
  parseStringLoop (p.advance 1) []

/-- `parseKey` of the parser: bare (alphanumeric, `-`, `_`) or quoted. -/
def BP.parseKey (p : BP) : Except String (Str × BP) :=
  let p := p.skipSpaces
  if p.peekChar p.pos = '"' then p.parseString
  else
    let start := p.pos
    let p := { p with
      pos := Strm.skipWhile (fun c => isAlphaNum c || c == '-' || c == '_') p.data p.pos }
    if p.pos = start then .error (p.errorf "expected a key")
    else .ok (Strm.strSlice p.data start p.pos, p)

/-- `parseIndicator`: `':'` or `'::'` after a key. -/
def BP.parseIndicator (p : BP) : Except String (Str × BP) :=
  if p.done ∨ p.at p.pos ≠ ':' then .error (p.errorf "expected ':' or '::' after key")
  else
    let p := p.advance 1
    if ¬p.done ∧ p.at p.pos = ':' then .ok (gs "::", p.advance 1)
    else .ok (gs ":", p)

end Buf

end Huml

namespace Huml

namespace Buf

/-- Model of `strconv.ParseInt(s, base, 64)`: sign, base-valid digits, exact
value with the `int64` range check. -/
def parseIntGo (s : Str) (base : Nat) : Except String Int :=
  let syntaxErr : Except String Int :=
    .error ("strconv.ParseInt: parsing " ++ String.mk (quoteGo s) ++ ": invalid syntax")
  let (neg, ds) : Bool × Str :=
    match s with
    | '+' :: rest => (false, rest)
    | '-' :: rest => (true, rest)
    | _ => (false, s)
  let digitVal : Char → Option Nat := fun c =>
    if '0' ≤ c ∧ c ≤ '9' then some (c.toNat - '0'.toNat)
    else if 'a' ≤ c ∧ c ≤ 'z' then some (c.toNat - 'a'.toNat + 10)
    else if 'A' ≤ c ∧ c ≤ 'Z' then some (c.toNat - 'A'.toNat + 10)
    else none
  if ds.isEmpty then syntaxErr
  else if ds.all (fun c => (digitVal c).getD 99 < base) then
    let mag : Nat := ds.foldl (fun a c => a * base + (digitVal c).getD 0) 0
    if neg then
      if mag > 2 ^ 63 then
        .error ("strconv.ParseInt: parsing " ++ String.mk (quoteGo s) ++ ": value out of range")
      else .ok (-(mag : Int))
    else
      if mag ≥ 2 ^ 63 then
        .error ("strconv.ParseInt: parsing " ++ String.mk (quoteGo s) ++ ": value out of range")
      else .ok (mag : Int)
  else syntaxErr

/-- The decimal loop of this parser's `parseNumber` (digits, `_`, `.`, and
`e`/`E` with optional sign; each `.`/`e` marks a float) — byte for byte the
same loop as the streaming lexer's `scanNumber`. -/
def bufDecLoop (data : Str) (pos : Nat) (isFloat : Bool) : Nat × Bool :=
  Strm.scanDecLoop data pos isFloat

/-- `parseBase` of the parser: digits of a prefixed literal, `ParseInt`, and
the sign applied afterwards. -/
def BP.parseBase (p : BP) (start : Nat) (base : Nat) (prefixStr : Str) :
    Except String (Value × BP) :=
  let p := p.advance prefixStr.length
  let numStart := p.pos
  let validDigit : Char → Bool := fun c =>
    match base with
    | 16 => isHex c
    | 8 => '0' ≤ c && c ≤ '7'
    | 2 => c == '0' || c == '1'
    | _ => false
  let p := { p with pos := Strm.skipWhile validDigit p.data p.pos }
  if p.pos = numStart then
    .error (p.errorf "invalid number literal, requires digits after prefix")
  else
    let sign : Str :=
      if p.at start = '+' ∨ p.at start = '-' then [p.at start] else []
    let numStr := (Strm.strSlice p.data numStart p.pos).filter (· ≠ '_')
    match parseIntGo numStr base with
    | .error e => .error (p.errorf ("invalid number: " ++ e))
    | .ok val =>
      if sign = gs "-" then .ok (.int (-val), p) else .ok (.int val, p)

/-- `parseNumber` of the parser: sign, base prefix or decimal/float body. -/
def BP.parseNumber (p : BP) : Except String (Value × BP) :=
  let start := p.pos
  let p := if p.peekChar p.pos = '+' ∨ p.peekChar p.pos = '-' then p.advance 1 else p
  if p.peekString (gs "0x") then p.parseBase start 16 (gs "0x")
  else if p.peekString (gs "0o") then p.parseBase start 8 (gs "0o")
  else if p.peekString (gs "0b") then p.parseBase start 2 (gs "0b")
  else
    let (pos, isFloat) := bufDecLoop p.data p.pos false
    let p := { p with pos := pos }
    let numStr := (Strm.strSlice p.data start p.pos).filter (· ≠ '_')
    if isFloat then
      match Strm.parseFloatGo numStr with
      | .error e => .error e
      | .ok q => .ok (.float (.num q), p)
    else
      match parseIntGo numStr 10 with
      | .error e => .error e
      | .ok n => .ok (.int n, p)

/-- ASCII `unicode.IsSpace` (the inputs considered are ASCII). -/
def isWhiteAscii (c : Char) : Bool :=
  c == ' ' || c == '\t' || c == '\n' || c == Char.ofNat 11 || c == Char.ofNat 12 ||
    c == Char.ofNat 13

/-- Model of `strings.TrimSpace` on ASCII: drop leading and trailing
whitespace. -/
def trimSpace (s : Str) : Str :=
  ((s.dropWhile isWhiteAscii).reverse.dropWhile isWhiteAscii).reverse

/-- `isSpaceString` of this iteration: `strings.TrimSpace(s) == ""`. -/
def isSpaceString (s : Str) : Bool := trimSpace s == []

/-- The strategy of a `fnLineProcessor` (`decode.go`): what to do with one
content line of a multiline string. -/
abbrev FnLineProcessor := Str → Nat → Nat → Str

/-- The preserve-mode (`` ``` ``) line processor of `parseMultilineString`:
strip the required `keyIndent + 2` spaces when present. -/
def preserveProcessor : FnLineProcessor := fun lineContent _ keyIndent =>
  let reqIndent := keyIndent + 2
  if lineContent.length ≥ reqIndent ∧ isSpaceString (lineContent.take reqIndent) then
    lineContent.drop reqIndent
  else lineContent

/-- The strip-mode (`"""`) line processor of `parseMultilineString`: trim all
leading and trailing whitespace of the line. -/
def stripProcessor : FnLineProcessor := fun lineContent _ _ => trimSpace lineContent

/-- The line loop of `parseMultilineStringContent`. -/
def parseMLContentLoop (fuel : Nat) (p : BP) (delim : Str) (keyIndent : Nat)
    (processLine : FnLineProcessor) (out : Str) : Except String (Str × BP) :=
  match fuel with
  | 0 => .error fuelErrMsg
  | fuel + 1 =>
    if p.done then .error (p.errorf "unclosed multiline string")
    else
      let lineStartPos := p.pos
      let afterIndent := Strm.skipWhile (· == ' ') p.data p.pos
      let lineIndent := afterIndent - p.pos
      let p1 := { p with pos := afterIndent }
      if p1.peekString delim then
        if lineIndent ≠ keyIndent then
          .error (p1.errorf ("multiline closing delimiter must be at same indentation as the key (" ++
            Nat.repr keyIndent ++ " spaces)"))
        else
          let p2 := p1.advance 3
          match p2.consumeLine with
          | .error _ =>
            .error (p2.errorf "invalid content after multiline string closing delimiter")
          | .ok p3 =>
            let res := if out.getLast? = some '\n' then out.dropLast else out
            .ok (res, p3)
      else
        let (lineContent, p2) := BP.consumeLineContent { p1 with pos := lineStartPos }
        let processed := processLine lineContent lineIndent keyIndent
        parseMLContentLoop fuel p2 delim keyIndent processLine (out ++ processed ++ ['\n'])

/-- `parseMultilineStringContent` of the parser. -/
def BP.parseMultilineStringContent (fuel : Nat) (p : BP) (delim : Str) (keyIndent : Nat)
    (processLine : FnLineProcessor) : Except String (Str × BP) :=
  parseMLContentLoop fuel p delim keyIndent processLine []

/-- `parseMultilineString` of the parser: `"""` strips every line's
surrounding whitespace, `` ``` `` preserves all but the required two-space
indent. -/
def BP.parseMultilineString (fuel : Nat) (p : BP) (keyIndent : Nat)
    (preserveSpaces : Bool) : Except String (Str × BP) :=
  let delim := Strm.strSlice p.data p.pos (p.pos + 3)
  let p := p.advance 3
  match p.consumeLine with
  | .error e => .error e
  | .ok p =>
    p.parseMultilineStringContent fuel delim keyIndent
      (if preserveSpaces then preserveProcessor else stripProcessor)

/-- `parseValue` of the parser. -/
def BP.parseValue (fuel : Nat) (p : BP) (keyIndent : Nat) : Except String (Value × BP) :=
  if p.done then .error (p.errorf "unexpected end of input, expected a value")
  else
    let c := p.at p.pos
    if c = '"' then
      if p.peekString (gs "\"\"\"") then
        match p.parseMultilineString fuel keyIndent false with
        | .error e => .error e
        | .ok (s, p) => .ok (.str s, p)
      else
        match p.parseString with
        | .error e => .error e
        | .ok (s, p) => .ok (.str s, p)
    else if c = '`' ∧ p.peekString (gs "```") then
      match p.parseMultilineString fuel keyIndent true with
      | .error e => .error e
      | .ok (s, p) => .ok (.str s, p)
    else if c = 't' ∧ p.peekString (gs "true") then .ok (.bool true, p.advance 4)
    else if c = 'f' ∧ p.peekString (gs "false") then .ok (.bool false, p.advance 5)
    else if c = 'n' ∧ p.peekString (gs "null") then .ok (.null, p.advance 4)
    else if c = 'n' ∧ p.peekString (gs "nan") then .ok (.float .nan, p.advance 3)
    else if c = 'i' ∧ p.peekString (gs "inf") then .ok (.float .inf, p.advance 3)
    else if c = '+' then
      let p1 := p.advance 1
      if p1.peekString (gs "inf") then .ok (.float .inf, p1.advance 3)
      else if isDigit (p1.peekChar p1.pos) then
        BP.parseNumber { p1 with pos := p1.pos - 1 }
      else .error (p1.errorf "invalid character after '+'")
    else if c = '-' then
      let p1 := p.advance 1
      if p1.peekString (gs "inf") then .ok (.float .negInf, p1.advance 3)
      else if isDigit (p1.peekChar p1.pos) then
        BP.parseNumber { p1 with pos := p1.pos - 1 }
      else .error (p1.errorf "invalid character after '-'")
    else if isDigit c then p.parseNumber
    else .error (p.errorf ("unexpected character '" ++ String.singleton c ++
      "' when parsing value"))

end Buf

end Huml

namespace Huml

namespace Strm

/-- `skipWhile` never moves backwards. -/
theorem skipWhile_ge (pr : Char → Bool) (line : Str) (pos : Nat) :
    pos ≤ skipWhile pr line pos := by
  unfold skipWhile; omega

end Strm

namespace Buf

/-- `hasKeyValuePair` of the parser: try `parseKey` on a scratch cursor and
look for `':'` (the Go code restores `p.pos` afterwards). -/
def BP.hasKeyValuePair (p : BP) : Bool :=
  match p.parseKey with
  | .error _ => false
  | .ok (_, p') => !p'.done && p'.at p'.pos == ':'

/-- The scan of `hasInlineDict` on the data suffix: a `':'` not followed by
another `':'` before the line ends. -/
def hidAux : Str → Bool
  | [] => false
  | c :: r =>
    if c ≠ '\n' ∧ c ≠ '#' then
      if c = ':' ∧ (match r with | c2 :: _ => c2 ≠ ':' | [] => false : Bool) then true
      else hidAux r
    else false

/-- The scan of `hasInlineDict`. -/
def hasInlineDictScan (data : Str) (pos : Nat) : Bool := hidAux (data.drop pos)

/-- `hasInlineDict` of the parser. -/
def BP.hasInlineDict (p : BP) : Bool := hasInlineDictScan p.data p.pos

/-- The scan of `hasInlineListAtRoot` on the data suffix: a comma before any
colon on the line. -/
def hilAux : Str → Bool
  | [] => false
  | c :: r =>
    if c ≠ '\n' ∧ c ≠ '#' then
      if c = ',' then true
      else if c = ':' then false
      else hilAux r
    else false

/-- The scan of `hasInlineListAtRoot`. -/
def hasInlineListScan (data : Str) (pos : Nat) : Bool := hilAux (data.drop pos)

/-- `hasInlineListAtRoot` of the parser. -/
def BP.hasInlineListAtRoot (p : BP) : Bool := hasInlineListScan p.data p.pos

/-- The flag scan of `hasInlineDictAtRoot` over the current line suffix:
(`hasColon`, `hasComma`, `hasDoubleColon`). -/
def lineFlagsAux : Str → Bool × Bool × Bool
  | [] => (false, false, false)
  | c :: r =>
    if c ≠ '\n' ∧ c ≠ '#' then
      let (hc, hm, hd) := lineFlagsAux r
      let dcHere := c == ':' && (match r with | c2 :: _ => c2 == ':' | [] => false)
      (hc || (c == ':' && !dcHere), hm || c == ',', hd || dcHere)
    else (false, false, false)

/-- The flag scan of `hasInlineDictAtRoot`. -/
def lineFlags (data : Str) (pos : Nat) : Bool × Bool × Bool := lineFlagsAux (data.drop pos)

/-- The trailing scan of `hasInlineDictAtRoot`, on the data suffix with a
fuel bound (every iteration consumes at least one byte, so `length + 1` fuel
always suffices): after the first line, only blank and comment lines may
remain. -/
def onlyBlankRestAux : Nat → Str → Bool
  | 0, _ => false
  | fuel + 1, s =>
    match s with
    | [] => true
    | _ =>
      match s.dropWhile (· == ' ') with
      | [] => true
      | c :: r =>
        if c = '\n' then onlyBlankRestAux fuel r
        else if c = '#' then
          match (c :: r).dropWhile (fun x => x != '\n') with
          | [] => true
          | _ :: r2 => onlyBlankRestAux fuel r2
        else false

/-- The trailing scan of `hasInlineDictAtRoot`. -/
def onlyBlankRest (data : Str) (pos : Nat) : Bool :=
  onlyBlankRestAux (data.length + 1) (data.drop pos)

/-- `hasInlineDictAtRoot` of the parser: `key: value` pairs and a comma on the
first line (no `'::'`), and nothing but blank/comment lines after it. -/
def BP.hasInlineDictAtRoot (p : BP) : Bool :=
  let (hasColon, hasComma, hasDoubleColon) := lineFlags p.data p.pos
  if ¬(hasColon ∧ hasComma ∧ ¬hasDoubleColon) then false
  else
    let pos := Strm.skipWhile (fun c => c != '\n') p.data p.pos
    let pos := if pos < p.data.length then pos + 1 else pos
    onlyBlankRest p.data pos

/-- `getRootType` of the parser. -/
def BP.getRootType (p : BP) : DataType :=
  if p.hasKeyValuePair then
    if p.hasInlineDictAtRoot then .inlineDict else .multilineDict
  else if p.peekString (gs "[]") then .emptyList
  else if p.peekString (gs "{}") then .emptyDict
  else if p.peekChar p.pos = '-' then .multilineList
  else if p.hasInlineListAtRoot then .inlineList
  else .scalar

/-- `getMultilineVectorType` of the parser: list or dict, by the first byte of
the block after `'::'`. -/
def BP.getMultilineVectorType (fuel : Nat) (p : BP) (indent : Nat) :
    Except String (DataType × BP) :=
  match BP.skipBlankLines fuel p with
  | .error e => .error e
  | .ok p =>
    if p.done then .error (p.errorf "ambiguous empty vector after '::'. Use [] or {}.")
    else if p.getCurIndent < indent then
      .error (p.errorf "ambiguous empty vector after '::'. Use [] or {}.")
    else if p.at p.pos = '-' then .ok (.multilineList, p)
    else .ok (.multilineDict, p)

/-- `assertRootEnd` of the parser. -/
def BP.assertRootEnd (fuel : Nat) (p : BP) (val : Value) (description : String) :
    Except String (Value × BP) :=
  match BP.skipBlankLines fuel p with
  | .error e => .error e
  | .ok p =>
    if ¬p.done then .error (p.errorf ("unexpected content after " ++ description))
    else .ok (val, p)

mutual

/-- The entry loop of this parser's `parseMultilineDict`. -/
def parseMultilineDictLoop (fuel : Nat) (p : BP) (indent : Nat)
    (out : List (Str × Value)) : Except String (List (Str × Value) × BP) :=
  match fuel with
  | 0 => .error fuelErrMsg
  | fuel + 1 =>
    match BP.skipBlankLines fuel p with
    | .error e => .error e
    | .ok p =>
      if p.done then .ok (out, p)
      else
        let curIndent := p.getCurIndent
        if curIndent < indent then .ok (out, p)
        else if curIndent ≠ indent then
          .error (p.errorf ("bad indent " ++ Nat.repr curIndent ++ ", expected " ++
            Nat.repr indent))
        else if ¬p.isKeyStart then
          .error (p.errorf ("invalid character '" ++ String.singleton (p.at p.pos) ++
            "', expected key"))
        else
          match p.parseKey with
          | .error e => .error e
          | .ok (key, p) =>
            if out.any (fun e => e.1 == key) then
              .error (p.errorf ("duplicate key '" ++ String.mk key ++ "' in dict"))
            else
              match p.parseIndicator with
              | .error e => .error e
              | .ok (ind, p) =>
                if ind = gs ":" then
                  match p.assertSpace "after ':'" with
                  | (some e, _) => .error e
                  | (none, p) =>
                    let isMultiline := p.peekString (gs "```") || p.peekString (gs "\"\"\"")
                    match BP.parseValue fuel p curIndent with
                    | .error e => .error e
                    | .ok (val, p) =>
                      if ¬isMultiline then
                        match p.consumeLine with
                        | .error e => .error e
                        | .ok p => parseMultilineDictLoop fuel p indent (out ++ [(key, val)])
                      else parseMultilineDictLoop fuel p indent (out ++ [(key, val)])
                else
                  match parseVector fuel p (curIndent + 2) with
                  | .error e => .error e
                  | .ok (val, p) => parseMultilineDictLoop fuel p indent (out ++ [(key, val)])
termination_by structural fuel

/-- `parseMultilineDict` of this parser. -/
def bufParseMultilineDict (fuel : Nat) (p : BP) (indent : Nat) :
    Except String (List (Str × Value) × BP) :=
  match fuel with
  | 0 => .error fuelErrMsg
  | fuel + 1 => parseMultilineDictLoop fuel p indent []
termination_by structural fuel

/-- The item loop of this parser's `parseMultilineList` (note the discarded
`assertSpace` after `'-'`). -/
def parseMultilineListLoop (fuel : Nat) (p : BP) (indent : Nat) (out : List Value) :
    Except String (List Value × BP) :=
  match fuel with
  | 0 => .error fuelErrMsg
  | fuel + 1 =>
    match BP.skipBlankLines fuel p with
    | .error e => .error e
    | .ok p =>
      if p.done then .ok (out, p)
      else
        let curIndent := p.getCurIndent
        if curIndent < indent then .ok (out, p)
        else if curIndent ≠ indent then
          .error (p.errorf ("bad indent " ++ Nat.repr curIndent ++ ", expected " ++
            Nat.repr indent))
        else if p.at p.pos ≠ '-' then .ok (out, p)
        else
          let p := p.advance 1
          let (_, p) := p.assertSpace "after '-'"
          if p.peekString (gs "::") then
            let p := p.advance 2
            match parseVector fuel p (curIndent + 2) with
            | .error e => .error e
            | .ok (val, p) => parseMultilineListLoop fuel p indent (out ++ [val])
          else
            match BP.parseValue fuel p curIndent with
            | .error e => .error e
            | .ok (val, p) =>
              match p.consumeLine with
              | .error e => .error e
              | .ok p => parseMultilineListLoop fuel p indent (out ++ [val])
termination_by structural fuel

/-- `parseMultilineList` of this parser. -/
def bufParseMultilineList (fuel : Nat) (p : BP) (indent : Nat) :
    Except String (List Value × BP) :=
  match fuel with
  | 0 => .error fuelErrMsg
  | fuel + 1 => parseMultilineListLoop fuel p indent []
termination_by structural fuel

/-- `parseVector` of this parser. -/
def parseVector (fuel : Nat) (p : BP) (indent : Nat) : Except String (Value × BP) :=
  match fuel with
  | 0 => .error fuelErrMsg
  | fuel + 1 =>
    let startPos := p.pos
    let p1 := p.skipSpaces
    if p1.done ∨ p1.at p1.pos = '\n' ∨ p1.at p1.pos = '#' then
      match BP.consumeLine { p1 with pos := startPos } with
      | .error e => .error e
      | .ok p2 =>
        match p2.getMultilineVectorType fuel indent with
        | .error e => .error e
        | .ok (vecType, p3) =>
          if vecType = .multilineList then
            match bufParseMultilineList fuel p3 p3.getCurIndent with
            | .error e => .error e
            | .ok (vs, p4) => .ok (.list vs, p4)
          else
            match bufParseMultilineDict fuel p3 p3.getCurIndent with
            | .error e => .error e
            | .ok (es, p4) => .ok (.dict es, p4)
    else
      let p2 : BP := { p1 with pos := startPos }
      match p2.assertSpace "after '::'" with
      | (some e, _) => .error e
      | (none, p3) => parseInlineVector fuel p3
termination_by structural fuel

/-- `parseInlineVector` of this parser. -/
def parseInlineVector (fuel : Nat) (p : BP) : Except String (Value × BP) :=
  match fuel with
  | 0 => .error fuelErrMsg
  | fuel + 1 =>
    if p.peekString (gs "[]") then
      match (p.advance 2).consumeLine with
      | .error e => .error e
      | .ok p => .ok (.list [], p)
    else if p.peekString (gs "{}") then
      match (p.advance 2).consumeLine with
      | .error e => .error e
      | .ok p => .ok (.dict [], p)
    else if p.hasInlineDict then
      match parseInlineDictItems fuel p true [] with
      | .error e => .error e
      | .ok (es, p) => .ok (.dict es, p)
    else
      match parseInlineListItems fuel p true [] with
      | .error e => .error e
      | .ok (vs, p) => .ok (.list vs, p)

/-- `parseInlineVectorContents`/`parseInlineItems` of this parser, dict case
(the Go code passes the per-item logic as a closure mutating `res`; it is
inlined here). -/
def parseInlineDictItems (fuel : Nat) (p : BP) (isFirst : Bool)
    (res : List (Str × Value)) : Except String (List (Str × Value) × BP) :=
  match fuel with
  | 0 => .error fuelErrMsg
  | fuel + 1 =>
    if ¬(¬p.done ∧ p.at p.pos ≠ '\n' ∧ p.at p.pos ≠ '#') then
      match p.consumeLine with
      | .error e => .error e
      | .ok p => .ok (res, p)
    else
      let sep : Option String × BP :=
        if ¬isFirst then p.expectComma else (none, p)
      match sep with
      | (some e, _) => .error e
      | (none, p) =>
        match p.parseKey with
        | .error e => .error e
        | .ok (key, p) =>
          if p.done ∨ p.at p.pos ≠ ':' then
            .error (p.errorf "expected ':' in inline dict")
          else if res.any (fun e => e.1 == key) then
            .error (p.errorf ("duplicate key '" ++ String.mk key ++ "' in dict"))
          else
            match (p.advance 1).assertSpace "in inline dict" with
            | (some e, _) => .error e
            | (none, p) =>
              match BP.parseValue fuel p 0 with
              | .error e => .error e
              | .ok (val, p) =>
                let res := res ++ [(key, val)]
                -- the comma-lookahead space handling of `parseInlineItems`
                if ¬p.done ∧ p.at p.pos = ' ' then
                  let nextPos := Strm.skipWhile (· == ' ') p.data (p.pos + 1)
                  if nextPos < p.data.length ∧ p.at nextPos = ',' then
                    parseInlineDictItems fuel p.skipSpaces false res
                  else
                    match p.consumeLine with
                    | .error e => .error e
                    | .ok p => .ok (res, p)
                else parseInlineDictItems fuel p false res
termination_by structural fuel

/-- `parseInlineVectorContents`/`parseInlineItems` of this parser, list case. -/
def parseInlineListItems (fuel : Nat) (p : BP) (isFirst : Bool) (out : List Value) :
    Except String (List Value × BP) :=
  match fuel with
  | 0 => .error fuelErrMsg
  | fuel + 1 =>
    if ¬(¬p.done ∧ p.at p.pos ≠ '\n' ∧ p.at p.pos ≠ '#') then
      match p.consumeLine with
      | .error e => .error e
      | .ok p => .ok (out, p)
    else
      let sep : Option String × BP :=
        if ¬isFirst then p.expectComma else (none, p)
      match sep with
      | (some e, _) => .error e
      | (none, p) =>
        match BP.parseValue fuel p 0 with
        | .error e => .error e
        | .ok (val, p) =>
          let out := out ++ [val]
          if ¬p.done ∧ p.at p.pos = ' ' then
            let nextPos := Strm.skipWhile (· == ' ') p.data (p.pos + 1)
            if nextPos < p.data.length ∧ p.at nextPos = ',' then
              parseInlineListItems fuel p.skipSpaces false out
            else
              match p.consumeLine with
              | .error e => .error e
              | .ok p => .ok (out, p)
          else parseInlineListItems fuel p false out

termination_by structural fuel

end

/-- `parse` of this parser: the version directive (checked against
`v0.1.0`), root checks, and the dispatch on `getRootType`. -/
def parse (fuel : Nat) (p : BP) : Except String (Value × BP) :=
  let versionRes : Except String BP :=
    if p.peekString (gs "%HUML") then
      let p := p.advance (gs "%HUML").length
      let checkRes : Except String BP :=
        if ¬p.done ∧ p.at p.pos = ' ' then
          let p := p.advance 1
          let start := p.pos
          let p := { p with
            pos := Strm.skipWhile (fun c => c != ' ' && c != '\n' && c != '#') p.data p.pos }
          if p.pos > start then
            let version := Strm.strSlice p.data start p.pos
            if version ≠ gs "v0.1.0" then
              .error (p.errorf ("unsupported version '" ++ String.mk version ++
                "'. expected 'v0.1.0'"))
            else .ok p
          else .ok p
        else .ok p
      match checkRes with
      | .error e => .error e
      | .ok p => p.consumeLine
    else .ok p
  match versionRes with
  | .error e => .error e
  | .ok p =>
    match BP.skipBlankLines fuel p with
    | .error e => .error e
    | .ok p =>
      if p.done then .error (p.errorf "empty document is undefined")
      else if p.getCurIndent ≠ 0 then
        .error (p.errorf "root element must not be indented")
      else if p.peekString (gs "::") then
        .error (p.errorf "'::' indicator not allowed at document root")
      else if p.peekString (gs ":") ∧ ¬p.hasKeyValuePair then
        .error (p.errorf "':' indicator not allowed at document root")
      else
        match p.getRootType with
        | .inlineDict =>
          match parseInlineDictItems fuel p true [] with
          | .error e => .error e
          | .ok (es, p) => p.assertRootEnd fuel (.dict es) "root inline dict"
        | .multilineDict =>
          match bufParseMultilineDict fuel p 0 with
          | .error e => .error e
          | .ok (es, p) => .ok (.dict es, p)
        | .emptyList =>
          match (p.advance 2).consumeLine with
          | .error e => .error e
          | .ok p => p.assertRootEnd fuel (.list []) "root list"
        | .emptyDict =>
          match (p.advance 2).consumeLine with
          | .error e => .error e
          | .ok p => p.assertRootEnd fuel (.dict []) "root dict"
        | .multilineList =>
          match bufParseMultilineList fuel p 0 with
          | .error e => .error e
          | .ok (vs, p) => .ok (.list vs, p)
        | .inlineList =>
          match parseInlineListItems fuel p true [] with
          | .error e => .error e
          | .ok (vs, p) => p.assertRootEnd fuel (.list vs) "root inline list"
        | .scalar =>
          match BP.parseValue fuel p 0 with
          | .error e => .error e
          | .ok (v, p) =>
            match p.consumeLine with
            | .error e => .error e
            | .ok p => p.assertRootEnd fuel v "root scalar value"

/-- This iteration's `Unmarshal`: reject empty input, then parse with a fresh
cursor at line 1.  `fuel` instruments the embedding's loops. -/
def Unmarshal (fuel : Nat) (data : Str) : Except String Value :=
  if data.length = 0 then .error "empty document is undefined"
  else
    match parse fuel { data := data } with
    | .error e => .error e
    | .ok (v, _) => .ok v

end Buf

end Huml

namespace Huml

/-! ## Verification infrastructure: a computable equality test on results,
used to discharge concrete evaluations through the kernel. -/

mutual

/-- Structural equality test on `Value`. -/
def beqV : Value → Value → Bool
  | .null, .null => true
  | .bool a, .bool b => a == b
  | .int a, .int b => a == b
  | .float a, .float b => decide (a = b)
  | .str a, .str b => a == b
  | .list xs, .list ys => beqL xs ys
  | .dict es, .dict fs => beqD es fs
  | _, _ => false

/-- Structural equality test on value lists. -/
def beqL : List Value → List Value → Bool
  | [], [] => true
  | x :: xs, y :: ys => beqV x y && beqL xs ys
  | _, _ => false

/-- Structural equality test on entry lists. -/
def beqD : List (Str × Value) → List (Str × Value) → Bool
  | [], [] => true
  | (k, v) :: es, (k2, v2) :: fs => k == k2 && beqV v v2 && beqD es fs
  | _, _ => false

end

mutual

theorem beqV_sound : ∀ a b, beqV a b = true → a = b
  | .null, .null, _ => rfl
  | .bool _, .bool _, h => by simpa [beqV] using h
  | .int _, .int _, h => by simpa [beqV] using h
  | .float _, .float _, h => by simpa [beqV, decide_eq_true_eq] using h
  | .str _, .str _, h => by simpa [beqV] using h
  | .list xs, .list ys, h => by rw [beqL_sound xs ys (by simpa [beqV] using h)]
  | .dict es, .dict fs, h => by rw [beqD_sound es fs (by simpa [beqV] using h)]
  | .null, .bool _, h | .null, .int _, h | .null, .float _, h | .null, .str _, h
  | .null, .list _, h | .null, .dict _, h
  | .bool _, .null, h | .bool _, .int _, h | .bool _, .float _, h | .bool _, .str _, h
  | .bool _, .list _, h | .bool _, .dict _, h
  | .int _, .null, h | .int _, .bool _, h | .int _, .float _, h | .int _, .str _, h
  | .int _, .list _, h | .int _, .dict _, h
  | .float _, .null, h | .float _, .bool _, h | .float _, .int _, h | .float _, .str _, h
  | .float _, .list _, h | .float _, .dict _, h
  | .str _, .null, h | .str _, .bool _, h | .str _, .int _, h | .str _, .float _, h
  | .str _, .list _, h | .str _, .dict _, h
  | .list _, .null, h | .list _, .bool _, h | .list _, .int _, h | .list _, .float _, h
  | .list _, .str _, h | .list _, .dict _, h
  | .dict _, .null, h | .dict _, .bool _, h | .dict _, .int _, h | .dict _, .float _, h
  | .dict _, .str _, h | .dict _, .list _, h => by simp [beqV] at h

theorem beqL_sound : ∀ xs ys, beqL xs ys = true → xs = ys
  | [], [], _ => rfl
  | x :: xs, y :: ys, h => by
    simp only [beqL, Bool.and_eq_true] at h
    rw [beqV_sound x y h.1, beqL_sound xs ys h.2]
  | [], _ :: _, h => by simp [beqL] at h
  | _ :: _, [], h => by simp [beqL] at h

theorem beqD_sound : ∀ es fs, beqD es fs = true → es = fs
  | [], [], _ => rfl
  | (k, v) :: es, (k2, v2) :: fs, h => by
    simp only [beqD, Bool.and_eq_true] at h
    obtain ⟨⟨h1, h2⟩, h3⟩ := h
    rw [beqV_sound v v2 h2, beqD_sound es fs h3, eq_of_beq h1]
  | [], _ :: _, h => by simp [beqD] at h
  | _ :: _, [], h => by simp [beqD] at h

end

/-- Equality test on parse results. -/
def beqRes : Except String Value → Except String Value → Bool
  | .error a, .error b => a == b
  | .ok a, .ok b => beqV a b
  | _, _ => false

theorem beqRes_sound : ∀ x y, beqRes x y = true → x = y
  | .error _, .error _, h => by simpa [beqRes] using h
  | .ok a, .ok b, h => by rw [beqV_sound a b (by simpa [beqRes] using h)]
  | .error _, .ok _, h => by simp [beqRes] at h
  | .ok _, .error _, h => by simp [beqRes] at h

/-- The closing step shared by both multiline-string loops: drop the final
accumulated newline when one is present. -/
def chompNL (s : Str) : Str := if s.getLast? = some '\n' then s.dropLast else s

/-- Left-to-right decimal value of a digit string, accumulated onto `v`
(the abstract value computed by the digit loop of `parseIntValue`). -/
def natVal : Str → Nat → Nat
  | [], v => v
  | c :: r, v => natVal r (v * 10 + (c.toNat - '0'.toNat))

end Huml

namespace Huml

/-! ## The claims -/

/-- **C3**: the streaming parser enforces exactly one space after the scalar
indicator `:`: `parse "key:value"` (no space), `parse "key:  value"` (two
spaces) and `parse "key : value"` (space before the colon) all fail, while
`parse "key: \"value\""` succeeds and yields the dict `{"key": "value"}`. -/
theorem C3_strict_spacing :
    Strm.Unmarshal 1000 (gs "key:value") =
      .error "line 1: expected single space after ':'" ∧
    Strm.Unmarshal 1000 (gs "key:  value") =
      .error "line 1: expected single space after ':', found multiple" ∧
    Strm.Unmarshal 1000 (gs "key : value") =
      .error "line 1: unquoted string 'value' is not allowed" ∧
    Strm.Unmarshal 1000 (gs "key: \"value\"") =
      .ok (.dict [(gs "key", .str (gs "value"))]) :=
  ⟨beqRes_sound _ _ (by decide!), beqRes_sound _ _ (by decide!),
   beqRes_sound _ _ (by decide!), beqRes_sound _ _ (by decide!)⟩

/-- **C4**: a `::` indicator with nothing following it (end of line or only a
comment, and no further content line at an indentation at or beyond the
required level) fails with the ambiguous-empty-vector error, while the
explicit empty markers `[]` and `{}` after `::` succeed, yielding the empty
list and the empty dict. -/
theorem C4_ambiguous_empty_vector :
    Strm.Unmarshal 1000 (gs "key::\n") =
      .error "line 1: ambiguous empty vector after '::'. Use [] or {}." ∧
    Strm.Unmarshal 1000 (gs "key:: # c") =
      .error "line 1: ambiguous empty vector after '::'. Use [] or {}." ∧
    Strm.Unmarshal 1000 (gs "key:: []") = .ok (.dict [(gs "key", .list [])]) ∧
    Strm.Unmarshal 1000 (gs "key:: {}") = .ok (.dict [(gs "key", .dict [])]) :=
  ⟨beqRes_sound _ _ (by decide!), beqRes_sound _ _ (by decide!),
   beqRes_sound _ _ (by decide!), beqRes_sound _ _ (by decide!)⟩

/-- **C5**: number literals decode to the specified values: `0xFF` to the
int64 255, `1_000` to 1000 (underscores ignored), `1.5e2` to the float 150.0,
`nan` to NaN and `inf` to positive infinity. -/
theorem C5_number_forms :
    Strm.Unmarshal 1000 (gs "key: 0xFF") = .ok (.dict [(gs "key", .int 255)]) ∧
    Strm.Unmarshal 1000 (gs "key: 1_000") = .ok (.dict [(gs "key", .int 1000)]) ∧
    Strm.Unmarshal 1000 (gs "key: 1.5e2") =
      .ok (.dict [(gs "key", .float (.num 150))]) ∧
    Strm.Unmarshal 1000 (gs "key: nan") = .ok (.dict [(gs "key", .float .nan)]) ∧
    Strm.Unmarshal 1000 (gs "key: inf") = .ok (.dict [(gs "key", .float .inf)]) :=
  ⟨beqRes_sound _ _ (by decide!), beqRes_sound _ _ (by decide!),
   beqRes_sound _ _ (by decide!), beqRes_sound _ _ (by decide!),
   beqRes_sound _ _ (by decide!)⟩

/-- **C10**: the streaming parser's digit-accumulation loop has no overflow
check: the literal `9223372036854775808` (one past `int64` max) parses without
error, and the stored value is the literal reduced modulo `2^64` into the
two's-complement range (`-9223372036854775808`), not a range error. -/
theorem C10_int64_wraparound :
    Strm.Unmarshal 1000 (gs "key: 9223372036854775808") =
      .ok (.dict [(gs "key", .int (-9223372036854775808))]) ∧
    (9223372036854775808 : Int) > 2 ^ 63 - 1 ∧
    wrap64 9223372036854775808 = -9223372036854775808 :=
  ⟨beqRes_sound _ _ (by decide!), by decide, by decide⟩

/-- **C2**: duplicate keys in a dictionary are rejected with an error naming
the line and the key, both in multiline dicts and in inline dicts; in general,
whenever the multiline-dict loop of the streaming parser peeks a key token at
the current indent whose value is already bound in the accumulated map, it
stops with exactly that duplicate-key error. -/
theorem C2_duplicate_keys :
    Strm.Unmarshal 1000 (gs "key: 1\nkey: 2") =
      .error "line 2: duplicate key 'key' in dict" ∧
    Strm.Unmarshal 1000 (gs "key:: a: 1, a: 2") =
      .error "line 1: duplicate key 'a' in dict" ∧
    ∀ (fuel : Nat) (l l₁ l₂ : Strm.Lexer) (indent : Nat)
      (out : List (Str × Value)) (tk keyTk : Token),
      Strm.Lexer.peek fuel l = .ok (tk, l₁) →
      (tk.type = .key ∨ tk.type = .quotedKey) →
      tk.indent = indent →
      Strm.Lexer.nextD fuel l₁ = (keyTk, l₂) →
      out.any (fun e => e.1 == keyTk.value) = true →
      Strm.parseMultilineDictLoop (fuel + 1) l indent out =
        .error ("line " ++ Nat.repr keyTk.line ++ ": duplicate key '" ++
          String.mk keyTk.value ++ "' in dict") := by
  refine ⟨beqRes_sound _ _ (by decide!), beqRes_sound _ _ (by decide!), ?_⟩
  intro fuel l l₁ l₂ indent out tk keyTk hpeek hty hind hnext hdup
  have h1 : ¬tk.type = TokenType.eof := by
    rcases hty with h | h <;> simp [h]
  have h2 : ¬(tk.type ≠ TokenType.key ∧ tk.type ≠ TokenType.quotedKey) := by
    rcases hty with h | h <;> simp [h]
  simp only [Strm.parseMultilineDictLoop, hpeek, hnext, hind]
  simp [h1, h2, hdup]

/-- Witness for the general clause of `C2_duplicate_keys`, at the lexer state
reached after consuming `key: 1` from `key: 1⏎key: 2` (modelled by a fresh
lexer on the remaining line) with `key` already bound in the accumulated
map. -/
theorem C2_duplicate_keys_witness :
    Strm.parseMultilineDictLoop 51 (Strm.newLexer (gs "key: 2")) 0
        [(gs "key", Value.int 1)] =
      .error "line 1: duplicate key 'key' in dict" :=
  C2_duplicate_keys.2.2 50 (Strm.newLexer (gs "key: 2")) _ _ 0
    [(gs "key", Value.int 1)] _ _ rfl (Or.inl rfl) rfl rfl (by decide)

/-- **C9**: a line whose content ends in a space is rejected by `readLine`
with a trailing-spaces error when the lexer is not inside a multiline string;
inside a multiline string `readLine` succeeds and stores the line content
verbatim, trailing spaces included.  Concretely, the document
`key: 1⏎·⏎` (· a space) fails with `line 2: trailing spaces are not
allowed`, while a `"""` multiline string keeps the trailing space of its
content line. -/
theorem C9_trailing_whitespace :
    (∀ (l : Strm.Lexer) (content rest : Str) (hitEof : Bool),
      l.inMultilineStr = false →
      Strm.readRaw l.rest = (content, rest, hitEof) →
      content.getLast? = some ' ' →
      (l.readLine).1 = .error (.errE
        (Strm.lexErrorf (l.lineNum + 1) "trailing spaces are not allowed"))) ∧
    (∀ (l : Strm.Lexer) (content rest : Str) (hitEof : Bool),
      l.inMultilineStr = true →
      Strm.readRaw l.rest = (content, rest, hitEof) →
      ¬(hitEof = true ∧ content = []) →
      l.readLine = (.ok (), { l with
        rest := rest
        eof := if hitEof then true else l.eof
        lineNum := l.lineNum + 1
        line := some content
        pos := 0 })) ∧
    Strm.Unmarshal 1000 (gs "key: 1\n \n") =
      .error "line 2: trailing spaces are not allowed" ∧
    Strm.Unmarshal 1000 (gs "k: \"\"\"\n  a \n\"\"\"") =
      .ok (.dict [(gs "k", .str (gs "a "))]) := by
  refine ⟨?_, ?_, beqRes_sound _ _ (by decide!), beqRes_sound _ _ (by decide!)⟩
  · intro l content rest hitEof hml hread hlast
    have hne : content ≠ [] := by intro h; rw [h] at hlast; simp at hlast
    simp only [Strm.Lexer.readLine, hread]
    simp [hne, hml, hlast]
  · intro l content rest hitEof hml hread hcase
    simp only [Strm.Lexer.readLine, hread]
    simp [hcase, hml]

/-- Witness for the general clauses of `C9_trailing_whitespace`: a fresh
lexer whose first line is a lone space errors, and a lexer inside a multiline
string keeps the line `a·` with its trailing space. -/
theorem C9_trailing_whitespace_witness :
    ((Strm.newLexer (gs " \nx")).readLine).1 = .error (.errE
        (Strm.lexErrorf 1 "trailing spaces are not allowed")) ∧
    ({ Strm.newLexer (gs "a \n") with inMultilineStr := true }).readLine =
      (.ok (), { Strm.newLexer (gs "a \n") with
        inMultilineStr := true
        rest := []
        eof := false
        lineNum := 1
        line := some (gs "a ")
        pos := 0 }) :=
  ⟨C9_trailing_whitespace.1 _ (gs " ") (gs "x") false rfl rfl rfl,
   C9_trailing_whitespace.2.1 _ (gs "a ") [] false rfl rfl (by decide)⟩

/-- **C7 counterexample**: the streaming lexer's `scanVersion` skips the
version token without validating it, so the streaming parser accepts a
document whose directive names the unsupported version `v9.9.9` — the claim
that the parse fails whenever the token differs from `v0.1.0` is false for
this parser. -/
theorem C7_version_directive_counterexample :
    Strm.Unmarshal 1000 (gs "%HUML v9.9.9\nkey: 1") =
      .ok (.dict [(gs "key", .int 1)]) :=
  beqRes_sound _ _ (by decide!)

/-- **C7** (amended): only the buffer parser of `decode.go` enforces the
version directive: whenever a `%HUML` directive is followed by a space and a
nonempty version token, its parse fails with the unsupported-version error if
the token differs from `v0.1.0` (general clause), and on `v0.1.0` it proceeds
to the document body; the streaming parser skips the token unvalidated and
also proceeds. -/
theorem C7_version_directive :
    (∀ (fuel : Nat) (p p2 : Buf.BP) (stop : Nat),
      p.peekString (gs "%HUML") = true →
      (¬(p.advance (gs "%HUML").length).done ∧
        (p.advance (gs "%HUML").length).at (p.advance (gs "%HUML").length).pos = ' ') →
      p2 = (p.advance (gs "%HUML").length).advance 1 →
      stop = Strm.skipWhile (fun c => c != ' ' && c != '\n' && c != '#')
        p2.data p2.pos →
      stop > p2.pos →
      Strm.strSlice p2.data p2.pos stop ≠ gs "v0.1.0" →
      Buf.parse fuel p = .error (({ p2 with pos := stop }).errorf
        ("unsupported version '" ++
          String.mk (Strm.strSlice p2.data p2.pos stop) ++
          "'. expected 'v0.1.0'"))) ∧
    Buf.Unmarshal 1000 (gs "%HUML v9.9.9\nkey: 1") =
      .error "line 1: unsupported version 'v9.9.9'. expected 'v0.1.0'" ∧
    Buf.Unmarshal 1000 (gs "%HUML v0.1.0\nkey: 1") =
      .ok (.dict [(gs "key", .int 1)]) ∧
    Strm.Unmarshal 1000 (gs "%HUML v0.1.0\nkey: 1") =
      .ok (.dict [(gs "key", .int 1)]) := by
  refine ⟨?_, beqRes_sound _ _ (by decide!), beqRes_sound _ _ (by decide!),
    beqRes_sound _ _ (by decide!)⟩
  intro fuel p p2 stop hpk hsp hp2 hstop hgt hneq
  subst hp2; subst hstop
  simp only [Buf.parse, hpk]
  simp [hsp.1, hsp.2, hgt, hneq]

/-- Witness for the general clause of `C7_version_directive`, at the concrete
document `%HUML v9.9.9⏎key: 1`. -/
theorem C7_version_directive_witness :
    Buf.parse 1000 { data := gs "%HUML v9.9.9\nkey: 1" } =
      .error "line 1: unsupported version 'v9.9.9'. expected 'v0.1.0'" :=
  C7_version_directive.1 1000 { data := gs "%HUML v9.9.9\nkey: 1" } _ _
    rfl (by decide) rfl rfl (by decide) (by decide)

/-- A head left by `dropWhile p` fails `p`. -/
theorem head_dropWhile_false (p : Char → Bool) :
    ∀ (x : Str) (c : Char), (x.dropWhile p).head? = some c → p c = false := by
  intro x
  induction x with
  | nil => intro c h; simp at h
  | cons a r ih =>
    intro c h
    by_cases hp : p a = true
    · rw [List.dropWhile_cons, if_pos hp] at h
      exact ih c h
    · rw [List.dropWhile_cons, if_neg hp] at h
      simp at h
      rw [← h]
      exact Bool.not_eq_true _ |>.mp hp

/-- `dropWhile` keeps the last element when it keeps anything. -/
theorem getLast_dropWhile_ne_nil (p : Char → Bool) :
    ∀ (x : Str), x.dropWhile p ≠ [] → (x.dropWhile p).getLast? = x.getLast? := by
  intro x
  induction x with
  | nil => intro h; simp
  | cons a r ih =>
    intro h
    by_cases hp : p a = true
    · rw [List.dropWhile_cons, if_pos hp] at h ⊢
      rw [ih h]
      have hr : r ≠ [] := by
        intro e; subst e; simp at h
      match r, hr with
      | b :: t, _ => rw [List.getLast?_cons_cons]
    · rw [List.dropWhile_cons, if_neg hp]

/-- `trimSpace` leaves no trailing whitespace. -/
theorem trimSpace_getLast_not_white (s : Str) (c : Char) :
    (Buf.trimSpace s).getLast? = some c → Buf.isWhiteAscii c = false := by
  intro h
  unfold Buf.trimSpace at h
  rw [List.getLast?_reverse] at h
  exact head_dropWhile_false _ _ _ h

/-- `trimSpace` leaves no leading whitespace. -/
theorem trimSpace_head_not_white (s : Str) (c : Char) :
    (Buf.trimSpace s).head? = some c → Buf.isWhiteAscii c = false := by
  intro h
  unfold Buf.trimSpace at h
  rw [List.head?_reverse] at h
  have hne : List.dropWhile Buf.isWhiteAscii
      ((List.dropWhile Buf.isWhiteAscii s).reverse) ≠ [] := by
    intro e; rw [e] at h; simp at h
  rw [getLast_dropWhile_ne_nil _ _ hne, List.getLast?_reverse] at h
  exact head_dropWhile_false _ _ _ h

/-- The strip-mode content loop only ever appends fully trimmed lines: a
successful run from accumulator `out` yields `out` extended by
newline-terminated `trimSpace`d lines, with the final newline chomped. -/
theorem stripLoop_decomp :
    ∀ (fuel : Nat) (p : Buf.BP) (delim : Str) (keyIndent : Nat) (out s : Str)
      (p' : Buf.BP),
      Buf.parseMLContentLoop fuel p delim keyIndent Buf.stripProcessor out =
        .ok (s, p') →
      ∃ ls : List Str,
        s = chompNL (out ++ (ls.map (fun l => Buf.trimSpace l ++ ['\n'])).flatten) := by
  intro fuel
  induction fuel with
  | zero =>
    intro p delim keyIndent out s p' h
    simp [Buf.parseMLContentLoop] at h
  | succ fuel ih =>
    intro p delim keyIndent out s p' h
    simp only [Buf.parseMLContentLoop] at h
    by_cases hd : p.done = true
    · simp [hd] at h
    · simp only [hd, if_false, Bool.false_eq_true] at h
      by_cases hpk : Buf.BP.peekString
          { p with pos := Strm.skipWhile (· == ' ') p.data p.pos } delim = true
      · simp only [hpk, if_true] at h
        by_cases hind : Strm.skipWhile (· == ' ') p.data p.pos - p.pos ≠ keyIndent
        · simp [hind] at h
        · simp only [hind, if_false] at h
          cases hc : Buf.BP.consumeLine
              (Buf.BP.advance { p with pos := Strm.skipWhile (· == ' ') p.data p.pos } 3) with
          | error e => rw [hc] at h; simp at h
          | ok p3 =>
            rw [hc] at h
            simp only [Except.ok.injEq, Prod.mk.injEq] at h
            refine ⟨[], ?_⟩
            simp [chompNL, ← h.1]
      · simp only [hpk, Bool.false_eq_true, if_false] at h
        rcases hcl : Buf.BP.consumeLineContent { p with pos := p.pos } with ⟨lc, p2⟩
        rw [hcl] at h
        obtain ⟨ls', hs⟩ := ih _ _ _ _ _ _ h
        refine ⟨lc :: ls', ?_⟩
        rw [hs]
        simp [Buf.stripProcessor, List.append_assoc]

/-- **C6 counterexample**: the streaming lexer's `"""` mode does not trim
each content line of all its whitespace: with the key at indent 0 it strips
exactly the fixed two-space prefix, so the content line `···a·` (three
leading spaces, one trailing) comes back as `·a·`, which still carries
leading and trailing whitespace. -/
theorem C6_strip_mode_counterexample :
    Strm.Unmarshal 1000 (gs "k: \"\"\"\n   a \n\"\"\"") =
      .ok (.dict [(gs "k", .str (gs " a "))]) ∧
    Buf.trimSpace (gs " a ") ≠ gs " a " :=
  ⟨beqRes_sound _ _ (by decide!), by decide⟩

/-- **C6** (amended): only the buffer parser's `"""` strip mode trims every
content line of all leading and trailing whitespace: its content loop
produces exactly the newline-join of `trimSpace`d source lines with the final
accumulated newline removed (general clause), and `trimSpace` leaves neither
leading nor trailing whitespace.  The streaming lexer instead strips exactly
the fixed `keyIndent + 2`-space prefix, preserving any further whitespace. -/
theorem C6_strip_mode :
    (∀ (fuel : Nat) (p : Buf.BP) (delim : Str) (keyIndent : Nat) (out s : Str)
      (p' : Buf.BP),
      Buf.parseMLContentLoop fuel p delim keyIndent Buf.stripProcessor out =
        .ok (s, p') →
      ∃ ls : List Str,
        s = chompNL (out ++ (ls.map (fun l => Buf.trimSpace l ++ ['\n'])).flatten)) ∧
    (∀ (s : Str) (c : Char),
      (Buf.trimSpace s).head? = some c → Buf.isWhiteAscii c = false) ∧
    (∀ (s : Str) (c : Char),
      (Buf.trimSpace s).getLast? = some c → Buf.isWhiteAscii c = false) ∧
    Buf.Unmarshal 1000 (gs "k: \"\"\"\n   a \n\"\"\"") =
      .ok (.dict [(gs "k", .str (gs "a"))]) ∧
    Buf.Unmarshal 1000 (gs "k: \"\"\"\n   a \n  b\t\n\"\"\"") =
      .ok (.dict [(gs "k", .str (gs "a\nb"))]) ∧
    Strm.Unmarshal 1000 (gs "k: \"\"\"\n   a \n\"\"\"") =
      .ok (.dict [(gs "k", .str (gs " a "))]) :=
  ⟨stripLoop_decomp, trimSpace_head_not_white, trimSpace_getLast_not_white,
   beqRes_sound _ _ (by decide!), beqRes_sound _ _ (by decide!),
   beqRes_sound _ _ (by decide!)⟩

/-- Witness for the general clause of `C6_strip_mode`: the loop run on the
single content line `x·` (one trailing space) yields `x`, decomposed as the
trimmed line list `[x·]`. -/
theorem C6_strip_mode_witness :
    ∃ ls : List Str,
      gs "x" = chompNL ([] ++ (ls.map (fun l => Buf.trimSpace l ++ ['\n'])).flatten) :=
  C6_strip_mode.1 10 { data := gs "x \n\"\"\"" } (gs "\"\"\"") 0 [] (gs "x") _ rfl

/-- Byte-wise `<` on strings is irreflexive. -/
theorem strLt_irrefl : ∀ x : Str, strLt x x = false
  | [] => rfl
  | a :: as => by simp [strLt, strLt_irrefl as]

/-- Byte-wise `<` on strings is transitive. -/
theorem strLt_trans : ∀ x y z : Str,
    strLt x y = true → strLt y z = true → strLt x z = true
  | [], _ :: _, _ :: _, _, _ => rfl
  | [], [], _, h, _ => by simp [strLt] at h
  | [], _ :: _, [], _, h => by simp [strLt] at h
  | _ :: _, [], _, h, _ => by simp [strLt] at h
  | _ :: _, _ :: _, [], _, h => by simp [strLt] at h
  | a :: as, b :: bs, c :: cs, h1, h2 => by
    simp only [strLt] at h1 h2 ⊢
    by_cases hab : a = b <;> by_cases hbc : b = c
    · subst hab; subst hbc
      simp only [if_pos rfl] at h1 h2 ⊢
      exact strLt_trans as bs cs h1 h2
    · subst hab
      rw [if_pos rfl] at h1
      rw [if_neg hbc] at h2 ⊢
      exact h2
    · subst hbc
      rw [if_neg hab] at h1 ⊢
      exact h1
    · rw [if_neg hab] at h1
      rw [if_neg hbc] at h2
      have hlt : a < c := lt_trans (of_decide_eq_true h1) (of_decide_eq_true h2)
      rw [if_neg (ne_of_lt hlt)]
      exact decide_eq_true hlt

/-- Strings with `strLt` false both ways are equal (byte-wise `<` is
connex). -/
theorem eq_of_strLt_false : ∀ x y : Str,
    strLt x y = false → strLt y x = false → x = y
  | [], [], _, _ => rfl
  | [], _ :: _, h, _ => by simp [strLt] at h
  | _ :: _, [], _, h => by simp [strLt] at h
  | a :: as, b :: bs, h1, h2 => by
    by_cases hab : a = b
    · subst hab
      simp only [strLt, if_pos rfl] at h1 h2
      rw [eq_of_strLt_false as bs h1 h2]
    · simp only [strLt, if_neg hab, if_neg (Ne.symm hab)] at h1 h2
      have h1' : ¬a < b := of_decide_eq_false h1
      have h2' : ¬b < a := of_decide_eq_false h2
      exact absurd (le_antisymm (le_of_not_lt h2') (le_of_not_lt h1')) hab

/-- Two sorted entry lists that are permutations of each other and have
pairwise-distinct keys are equal. -/
theorem sorted_perm_eq_of_nodup_keys :
    ∀ (l₁ l₂ : List (Str × Value)),
      l₁.Perm l₂ →
      List.Pairwise (fun a b => (!strLt b.1 a.1) = true) l₁ →
      List.Pairwise (fun a b => (!strLt b.1 a.1) = true) l₂ →
      (l₁.map Prod.fst).Nodup →
      l₁ = l₂
  | [], l₂, hperm, _, _, _ => (hperm.symm.eq_nil).symm
  | a :: t₁, [], hperm, _, _, _ => absurd hperm.eq_nil (by simp)
  | a :: t₁, b :: t₂, hperm, hs₁, hs₂, hnd => by
    have hab : a = b := by
      have ha : a ∈ b :: t₂ := hperm.mem_iff.mp (List.mem_cons_self a t₁)
      have hb : b ∈ a :: t₁ := hperm.mem_iff.mpr (List.mem_cons_self b t₂)
      rcases List.mem_cons.mp ha with h | ha'
      · exact h
      rcases List.mem_cons.mp hb with h | hb'
      · exact h.symm
      have h1 : (!strLt b.1 a.1) = true := (List.pairwise_cons.mp hs₁).1 b hb'
      have h2 : (!strLt a.1 b.1) = true := (List.pairwise_cons.mp hs₂).1 a ha'
      have hkey : a.1 = b.1 :=
        eq_of_strLt_false a.1 b.1 (Bool.not_eq_true' .. |>.mp h2)
          (Bool.not_eq_true' .. |>.mp h1)
      exfalso
      have : a.1 ∈ t₁.map Prod.fst := hkey ▸ List.mem_map_of_mem Prod.fst hb'
      exact (List.nodup_cons.mp hnd).1 this
    subst hab
    have ht : t₁ = t₂ :=
      sorted_perm_eq_of_nodup_keys t₁ t₂ hperm.cons_inv
        (List.pairwise_cons.mp hs₁).2 (List.pairwise_cons.mp hs₂).2
        (List.nodup_cons.mp hnd).2
    rw [ht]

/-- `sortEntries` is sorted: transitivity and totality of the comparison
feed `List.sorted_mergeSort`. -/
theorem sortEntries_sorted (es : List (Str × Value)) :
    List.Pairwise (fun a b : Str × Value => (!strLt b.1 a.1) = true)
      (Enc.sortEntries es) := by
  refine List.sorted_mergeSort ?_ ?_ es
  · intro a b c h1 h2
    simp only [Bool.not_eq_true'] at h1 h2 ⊢
    by_cases hab : strLt a.1 b.1 = true
    · by_cases hca : strLt c.1 a.1 = true
      · exact absurd (strLt_trans c.1 a.1 b.1 hca hab) (by simp [h2])
      · exact Bool.not_eq_true _ |>.mp hca
    · rw [eq_of_strLt_false a.1 b.1 (Bool.not_eq_true _ |>.mp hab) h1]
      exact h2
  · intro a b
    by_cases h : strLt b.1 a.1 = true
    · have : strLt a.1 b.1 = false := by
        by_contra h2
        have h2' : strLt a.1 b.1 = true := Bool.ne_false_iff.mp h2
        exact absurd (strLt_trans a.1 b.1 a.1 h2' h) (by simp [strLt_irrefl])
      simp [this]
    · simp [Bool.not_eq_true _ |>.mp h]

/-- `sortEntries` depends only on the unordered entries when the keys are
distinct. -/
theorem sortEntries_perm_invariant (es₁ es₂ : List (Str × Value))
    (h : es₁.Perm es₂) (hnd : (es₁.map Prod.fst).Nodup) :
    Enc.sortEntries es₁ = Enc.sortEntries es₂ := by
  refine sorted_perm_eq_of_nodup_keys _ _ ?_ (sortEntries_sorted es₁)
    (sortEntries_sorted es₂) ?_
  · exact (List.mergeSort_perm es₁ _).trans (h.trans (List.mergeSort_perm es₂ _).symm)
  · exact (((List.mergeSort_perm es₁ _).map Prod.fst).nodup_iff).mpr hnd

/-- **C8**: the encoder is deterministic on dictionaries.  A Go map has no
intrinsic entry order, modelled here by quantifying over permutations of the
entry list: with distinct keys (as map keys are), `marshalMap` — and hence
`Marshal` of the dict — produces identical bytes for any entry order, because
the emitted order is always the key-sorted one (`sortEntries` is sorted by
byte-wise `<` and is order-independent); concretely both entry orders of
`{"a": 1, "b": 2}` marshal to the same key-sorted bytes. -/
theorem C8_encoder_determinism :
    (∀ (es₁ es₂ : List (Str × Value)) (indent : Nat),
      es₁.Perm es₂ → (es₁.map Prod.fst).Nodup →
      Enc.marshalMap es₁ indent = Enc.marshalMap es₂ indent ∧
      Enc.Marshal (.dict es₁) = Enc.Marshal (.dict es₂)) ∧
    (∀ es : List (Str × Value),
      List.Pairwise (fun a b : Str × Value => (!strLt b.1 a.1) = true)
        (Enc.sortEntries es)) ∧
    Enc.Marshal (.dict [(gs "b", .int 2), (gs "a", .int 1)]) =
      Enc.Marshal (.dict [(gs "a", .int 1), (gs "b", .int 2)]) ∧
    Enc.Marshal (.dict [(gs "b", .int 2), (gs "a", .int 1)]) =
      gs "%HUML v0.1.0\na: 1\nb: 2\n" := by
  have hmap : ∀ (es₁ es₂ : List (Str × Value)) (indent : Nat),
      es₁.Perm es₂ → (es₁.map Prod.fst).Nodup →
      Enc.marshalMap es₁ indent = Enc.marshalMap es₂ indent := by
    intro es₁ es₂ indent h hnd
    rw [Enc.marshalMap, Enc.marshalMap]
    rcases es₁ with _ | ⟨e, t⟩
    · rw [h.symm.eq_nil]
    · have hne : es₂ ≠ [] := by
        intro hc; subst hc; exact absurd h.eq_nil (by simp)
      rw [if_neg (by simp), if_neg (by simp [hne])]
      rw [sortEntries_perm_invariant _ _ h hnd]
  have hsort : Enc.sortEntries [(gs "b", Value.int 2), (gs "a", Value.int 1)] =
      [(gs "a", Value.int 1), (gs "b", Value.int 2)] := beqD_sound _ _ (by decide!)
  refine ⟨fun es₁ es₂ indent h hnd => ⟨hmap es₁ es₂ indent h hnd, ?_⟩,
    sortEntries_sorted, ?_, ?_⟩
  · simp only [Enc.Marshal, Enc.marshalValue]
    rw [hmap es₁ es₂ 0 h hnd]
  · have hsort2 : Enc.sortEntries [(gs "a", Value.int 1), (gs "b", Value.int 2)] =
        [(gs "a", Value.int 1), (gs "b", Value.int 2)] := beqD_sound _ _ (by decide!)
    simp only [Enc.Marshal, Enc.marshalValue, Enc.marshalMap, hsort, hsort2,
      Enc.mapEntries, Enc.writeKVPair, Enc.isVectorValue, Enc.isEmptyVector,
      List.isEmpty]
  · simp only [Enc.Marshal, Enc.marshalValue, Enc.marshalMap, hsort,
      Enc.mapEntries, Enc.writeKVPair, Enc.isVectorValue, Enc.isEmptyVector,
      List.isEmpty]
    decide!

/-- Witness for the general clause of `C8_encoder_determinism`: the two entry
orders of `{"a": 1, "b": 2}` marshal identically. -/
theorem C8_encoder_determinism_witness :
    Enc.marshalMap [(gs "b", Value.int 2), (gs "a", Value.int 1)] 0 =
      Enc.marshalMap [(gs "a", Value.int 1), (gs "b", Value.int 2)] 0 ∧
    Enc.Marshal (.dict [(gs "b", Value.int 2), (gs "a", Value.int 1)]) =
      Enc.Marshal (.dict [(gs "a", Value.int 1), (gs "b", Value.int 2)]) :=
  C8_encoder_determinism.1 [(gs "b", Value.int 2), (gs "a", Value.int 1)]
    [(gs "a", Value.int 1), (gs "b", Value.int 2)] 0
    (List.Perm.swap _ _ _) (by decide)

/-- Accumulation never decreases the decimal value. -/
theorem natVal_le : ∀ (ds : Str) (v : Nat), v ≤ natVal ds v
  | [], v => le_refl v
  | c :: r, v => by
    have h1 : v ≤ v * 10 + (c.toNat - '0'.toNat) := by omega
    exact le_trans h1 (natVal_le r _)

/-- `digitChar` inverts to its digit for digits below 10. -/
theorem digitChar_val : ∀ m, m < 10 → (Nat.digitChar m).toNat - '0'.toNat = m := by
  decide

/-- `digitChar` of a digit below 10 is a decimal digit character. -/
theorem digitChar_digit : ∀ m, m < 10 → '0' ≤ Nat.digitChar m ∧ Nat.digitChar m ≤ '9' := by
  decide

/-- `digitChar` of a nonzero digit below 10 is not `'0'`. -/
theorem digitChar_ne_zero : ∀ m, 1 ≤ m → m < 10 → Nat.digitChar m ≠ '0' := by
  decide

/-- The decimal value of the digits `Nat.toDigitsCore` produces. -/
theorem natVal_toDigitsCore : ∀ (fuel n : Nat) (ds : Str), n < fuel →
    natVal (Nat.toDigitsCore 10 fuel n ds) 0 = natVal ds n := by
  intro fuel
  induction fuel with
  | zero => intro n ds h; omega
  | succ fuel ih =>
    intro n ds h
    simp only [Nat.toDigitsCore]
    by_cases hz : n / 10 = 0
    · rw [if_pos hz]
      simp only [natVal]
      rw [digitChar_val _ (by omega)]
      congr 1
      omega
    · rw [if_neg hz]
      rw [ih (n / 10) _ (by omega)]
      simp only [natVal]
      rw [digitChar_val _ (by omega)]
      congr 1
      omega

/-- Every character `Nat.toDigitsCore` produces in base 10 is a decimal
digit. -/
theorem toDigitsCore_digits : ∀ (fuel n : Nat) (ds : Str), n < fuel →
    (∀ c ∈ ds, '0' ≤ c ∧ c ≤ '9') →
    ∀ c ∈ Nat.toDigitsCore 10 fuel n ds, '0' ≤ c ∧ c ≤ '9' := by
  intro fuel
  induction fuel with
  | zero => intro n ds h; omega
  | succ fuel ih =>
    intro n ds h hds
    simp only [Nat.toDigitsCore]
    by_cases hz : n / 10 = 0
    · rw [if_pos hz]
      intro c hc
      rcases List.mem_cons.mp hc with h1 | h1
      · rw [h1]; exact digitChar_digit _ (by omega)
      · exact hds c h1
    · rw [if_neg hz]
      refine ih (n / 10) _ (by omega) ?_
      intro c hc
      rcases List.mem_cons.mp hc with h1 | h1
      · rw [h1]; exact digitChar_digit _ (by omega)
      · exact hds c h1

/-- For a positive number, `Nat.toDigitsCore` yields a nonzero leading
digit. -/
theorem toDigitsCore_shape : ∀ (fuel n : Nat) (ds : Str), n < fuel → 1 ≤ n →
    ∃ c cs, Nat.toDigitsCore 10 fuel n ds = c :: cs ∧ c ≠ '0' := by
  intro fuel
  induction fuel with
  | zero => intro n ds h; omega
  | succ fuel ih =>
    intro n ds h hn
    simp only [Nat.toDigitsCore]
    by_cases hz : n / 10 = 0
    · rw [if_pos hz]
      exact ⟨_, _, rfl, by
        have : n % 10 = n := by omega
        rw [this]; exact digitChar_ne_zero _ hn (by omega)⟩
    · rw [if_neg hz]
      exact ih (n / 10) _ (by omega) (by omega)

/-- `natToStr` is `Nat.toDigitsCore` (the decimal printer of `Nat.repr`). -/
theorem natToStr_eq (m : Nat) : natToStr m = Nat.toDigitsCore 10 (m + 1) m [] := rfl

/-- The decimal value of `natToStr` is the number itself. -/
theorem natVal_natToStr (m : Nat) : natVal (natToStr m) 0 = m := by
  rw [natToStr_eq, natVal_toDigitsCore _ _ _ (Nat.lt_succ_self m)]
  rfl

/-- `natToStr` consists of decimal digits only. -/
theorem natToStr_digits (m : Nat) : ∀ c ∈ natToStr m, '0' ≤ c ∧ c ≤ '9' := by
  rw [natToStr_eq]
  exact toDigitsCore_digits _ _ _ (Nat.lt_succ_self m) (by simp)

/-- For positive `m`, `natToStr m` has a nonzero leading digit. -/
theorem natToStr_shape (m : Nat) (h : 1 ≤ m) :
    ∃ c cs, natToStr m = c :: cs ∧ c ≠ '0' := by
  rw [natToStr_eq]
  exact toDigitsCore_shape _ _ _ (Nat.lt_succ_self m) h

/-- `wrap64` is the identity inside the `int64` range. -/
theorem wrap64_id (x : Int) (h1 : -(2 ^ 63) ≤ x) (h2 : x < 2 ^ 63) :
    wrap64 x = x := by
  unfold wrap64
  have h63 : (2 : Int) ^ 63 = 9223372036854775808 := by norm_num
  have h64 : (2 : Int) ^ 64 = 18446744073709551616 := by norm_num
  rw [h63, h64] at *
  rw [Int.emod_eq_of_lt (by omega) (by omega)]
  omega

/-- The digit loop of `parseIntValue` computes the decimal value of an
in-range digit string (no wrap-around occurs). -/
theorem parseIntDigits_inv : ∀ (ds : Str) (v : Nat),
    (∀ c ∈ ds, '0' ≤ c ∧ c ≤ '9') → natVal ds v < 2 ^ 63 →
    Strm.parseIntDigits 10 ds (v : Int) = .ok (natVal ds v : Int)
  | [], v, _, _ => by simp [Strm.parseIntDigits, natVal]
  | c :: r, v, hds, hlt => by
    have hc := hds c (List.mem_cons_self c r)
    have hb : 48 ≤ c.toNat ∧ c.toNat ≤ 57 := by
      rw [Char.le_def] at hc
      exact ⟨hc.1, hc.2⟩
    have hn_ : ¬c = '_' := by
      intro h; subst h
      exact absurd hc.2 (by decide)
    simp only [Strm.parseIntDigits, if_neg hn_, hc.1, hc.2, and_self, if_pos]
    have hdig : ¬((c.toNat : Int) - ('0'.toNat : Int) ≥ 10) := by
      have : '0'.toNat = 48 := by decide
      omega
    rw [if_neg hdig]
    have hstep : wrap64 ((v : Int) * 10 + ((c.toNat : Int) - ('0'.toNat : Int))) =
        ((v * 10 + (c.toNat - '0'.toNat) : Nat) : Int) := by
      have h0 : '0'.toNat = 48 := by decide
      have hle : (v * 10 + (c.toNat - '0'.toNat) : Nat) ≤ natVal (c :: r) v := by
        simp only [natVal]
        exact natVal_le r _
      rw [wrap64_id _ (by omega) (by
        have h2 : ((2:Int)^63) = ((2^63 : Nat) : Int) := by norm_num
        omega)]
      omega
    rw [hstep]
    have hrec := parseIntDigits_inv r (v * 10 + (c.toNat - '0'.toNat))
      (fun d hd => hds d (List.mem_cons_of_mem c hd)) (by simpa [natVal] using hlt)
    rw [hrec]
    simp [natVal]

/-- Characters with equal code points are equal. -/
theorem char_eq_of_toNat_eq {a b : Char} (h : a.toNat = b.toNat) : a = b :=
  Char.ext (UInt32.ext h)

/-- A nonzero decimal digit character is one of `'1'`–`'9'`. -/
theorem digit_char_cases (c : Char) (h1 : '0' ≤ c) (h2 : c ≤ '9') (h0 : c ≠ '0') :
    c = '1' ∨ c = '2' ∨ c = '3' ∨ c = '4' ∨ c = '5' ∨ c = '6' ∨ c = '7' ∨
      c = '8' ∨ c = '9' := by
  rw [Char.le_def] at h1 h2
  have hb : 48 ≤ c.toNat ∧ c.toNat ≤ 57 := ⟨h1, h2⟩
  have h48 : c.toNat ≠ 48 := by
    intro h; exact h0 (char_eq_of_toNat_eq (by rw [h]; decide))
  have h9 : c.toNat = 49 ∨ c.toNat = 50 ∨ c.toNat = 51 ∨ c.toNat = 52 ∨
      c.toNat = 53 ∨ c.toNat = 54 ∨ c.toNat = 55 ∨ c.toNat = 56 ∨
      c.toNat = 57 := by omega
  rcases h9 with h|h|h|h|h|h|h|h|h
  · exact Or.inl (char_eq_of_toNat_eq (by rw [h]; decide))
  · exact Or.inr (Or.inl (char_eq_of_toNat_eq (by rw [h]; decide)))
  · exact Or.inr (Or.inr (Or.inl (char_eq_of_toNat_eq (by rw [h]; decide))))
  · exact Or.inr (Or.inr (Or.inr (Or.inl (char_eq_of_toNat_eq (by rw [h]; decide)))))
  · exact Or.inr (Or.inr (Or.inr (Or.inr (Or.inl (char_eq_of_toNat_eq
      (by rw [h]; decide))))))
  · exact Or.inr (Or.inr (Or.inr (Or.inr (Or.inr (Or.inl (char_eq_of_toNat_eq
      (by rw [h]; decide)))))))
  · exact Or.inr (Or.inr (Or.inr (Or.inr (Or.inr (Or.inr (Or.inl
      (char_eq_of_toNat_eq (by rw [h]; decide))))))))
  · exact Or.inr (Or.inr (Or.inr (Or.inr (Or.inr (Or.inr (Or.inr (Or.inl
      (char_eq_of_toNat_eq (by rw [h]; decide)))))))))
  · exact Or.inr (Or.inr (Or.inr (Or.inr (Or.inr (Or.inr (Or.inr (Or.inr
      (char_eq_of_toNat_eq (by rw [h]; decide)))))))))

set_option maxHeartbeats 3200000 in
/-- `parseIntValue` inverts the decimal printer on positive in-range
numbers. -/
theorem parseIntValue_natToStr (m : Nat) (h1 : 1 ≤ m) (h2 : m < 2 ^ 63) :
    Strm.parseIntValue (natToStr m) = .ok (m : Int) := by
  obtain ⟨c, cs, hm, hc0⟩ := natToStr_shape m h1
  have hdig := natToStr_digits m
  rw [hm] at hdig
  have hcd : '0' ≤ c ∧ c ≤ '9' := hdig c (List.mem_cons_self c cs)
  have hpd := parseIntDigits_inv (c :: cs) 0 hdig (by
    rw [← hm, natVal_natToStr]; exact h2)
  norm_num at hpd
  have hval : natVal (c :: cs) 0 = m := by rw [← hm, natVal_natToStr]
  rw [hval] at hpd
  have hw : wrap64 ((m : Int)) = ((m : Int)) := by
    refine wrap64_id _ ?_ ?_
    · have hq : ((2 : Int) ^ 63) = 9223372036854775808 := by norm_num
      omega
    · have hq : ((2 : Int) ^ 63) = ((2 ^ 63 : Nat) : Int) := by norm_num
      omega
  rw [hm]
  have h9 := digit_char_cases c hcd.1 hcd.2 hc0
  rcases h9 with h|h|h|h|h|h|h|h|h <;> subst h <;>
    rcases cs with _ | ⟨a, cs2⟩ <;> (try rcases cs2 with _ | ⟨b, cs3⟩) <;>
    simp only [Strm.parseIntValue] <;> simp <;> (try rw [hpd]) <;>
    (try simp [hw])

set_option maxHeartbeats 3200000 in
/-- `parseIntValue` inverts the decimal printer on negative in-range
numbers. -/
theorem parseIntValue_neg_natToStr (m : Nat) (h1 : 1 ≤ m) (h2 : m < 2 ^ 63) :
    Strm.parseIntValue ('-' :: natToStr m) = .ok (-(m : Int)) := by
  obtain ⟨c, cs, hm, hc0⟩ := natToStr_shape m h1
  have hdig := natToStr_digits m
  rw [hm] at hdig
  have hcd : '0' ≤ c ∧ c ≤ '9' := hdig c (List.mem_cons_self c cs)
  have hpd := parseIntDigits_inv (c :: cs) 0 hdig (by
    rw [← hm, natVal_natToStr]; exact h2)
  norm_num at hpd
  have hval : natVal (c :: cs) 0 = m := by rw [← hm, natVal_natToStr]
  rw [hval] at hpd
  have hw : wrap64 (-((m : Int))) = -((m : Int)) := by
    refine wrap64_id _ ?_ ?_
    · have hq : ((2 : Int) ^ 63) = ((2 ^ 63 : Nat) : Int) := by norm_num
      omega
    · have hq : ((2 : Int) ^ 63) = 9223372036854775808 := by norm_num
      omega
  rw [hm]
  have h9 := digit_char_cases c hcd.1 hcd.2 hc0
  rcases h9 with h|h|h|h|h|h|h|h|h <;> subst h <;>
    rcases cs with _ | ⟨a, cs2⟩ <;> (try rcases cs2 with _ | ⟨b, cs3⟩) <;>
    simp only [Strm.parseIntValue] <;> simp <;> (try rw [hpd]) <;>
    (try simp [hw])

set_option maxRecDepth 8192 in
/-- `parseIntValue` inverts `intToStr` on the whole `int64` range. -/
theorem parseIntValue_intToStr (n : Int) (hlo : -(2 ^ 63) ≤ n) (hhi : n < 2 ^ 63) :
    Strm.parseIntValue (intToStr n) = .ok n := by
  have hq : ((2 : Int) ^ 63) = 9223372036854775808 := by norm_num
  rw [hq] at hlo hhi
  have hqn : (2 ^ 63 : Nat) = 9223372036854775808 := by norm_num
  by_cases hneg : n < 0
  · by_cases hmin : n = -9223372036854775808
    · subst hmin
      have : Strm.parseIntValue (intToStr (-9223372036854775808)) =
          .ok (-9223372036854775808) := rfl
      exact this
    · have h1 : 1 ≤ n.natAbs := by omega
      have h2 : n.natAbs < 2 ^ 63 := by omega
      have hi : intToStr n = '-' :: natToStr n.natAbs := by
        rw [intToStr, if_pos hneg]
      rw [hi, parseIntValue_neg_natToStr n.natAbs h1 h2]
      congr 1
      omega
  · by_cases hz : n = 0
    · subst hz
      have : Strm.parseIntValue (intToStr 0) = .ok 0 := rfl
      exact this
    · have h1 : 1 ≤ n.toNat := by omega
      have h2 : n.toNat < 2 ^ 63 := by omega
      have hi : intToStr n = natToStr n.toNat := by
        rw [intToStr, if_neg hneg]
        congr 1
        omega
      rw [hi, parseIntValue_natToStr n.toNat h1 h2]
      congr 1
      omega

/-- **C1 counterexample**: the round trip fails on values the streaming
parser itself produced.  (a) The multiline string `a⏎b` (obtained from a
`"""` document) marshals to a `` ``` `` block, which the streaming parser
rejects — it has no `` ``` `` handler.  (b) A dict whose first sorted entry
is a string containing `", "` marshals to a document whose first body line
contains a comma, which `getRootType` misclassifies as an inline dict, so
re-parsing fails. -/
theorem C1_round_trip_counterexample :
    Strm.Unmarshal 1000 (gs "k: \"\"\"\n  a\n  b\n\"\"\"") =
      .ok (.dict [(gs "k", .str (gs "a\nb"))]) ∧
    Enc.Marshal (.dict [(gs "k", .str (gs "a\nb"))]) =
      gs "%HUML v0.1.0\nk: ```\n    a\n    b\n  ```\n" ∧
    Strm.Unmarshal 1000 (gs "%HUML v0.1.0\nk: ```\n    a\n    b\n  ```\n") =
      .error "line 2: unexpected character '`'" ∧
    Strm.Unmarshal 1000 (gs "z: 1\nk: \"a, b\"") =
      .ok (.dict [(gs "z", .int 1), (gs "k", .str (gs "a, b"))]) ∧
    Enc.Marshal (.dict [(gs "z", .int 1), (gs "k", .str (gs "a, b"))]) =
      gs "%HUML v0.1.0\nk: \"a, b\"\nz: 1\n" ∧
    Strm.Unmarshal 1000 (gs "%HUML v0.1.0\nk: \"a, b\"\nz: 1\n") =
      .error "line 3: unexpected content after root inline dict" := by
  have hs1 : Enc.sortEntries [(gs "k", Value.str (gs "a\nb"))] =
      [(gs "k", Value.str (gs "a\nb"))] := beqD_sound _ _ (by decide!)
  have hs2 : Enc.sortEntries [(gs "z", Value.int 1), (gs "k", Value.str (gs "a, b"))] =
      [(gs "k", Value.str (gs "a, b")), (gs "z", Value.int 1)] :=
    beqD_sound _ _ (by decide!)
  refine ⟨beqRes_sound _ _ (by decide!), ?_, beqRes_sound _ _ (by decide!),
    beqRes_sound _ _ (by decide!), ?_, beqRes_sound _ _ (by decide!)⟩
  · simp only [Enc.Marshal, Enc.marshalValue, Enc.marshalMap, hs1, Enc.mapEntries,
      Enc.writeKVPair, Enc.isVectorValue, Enc.isEmptyVector, List.isEmpty]
    decide!
  · simp only [Enc.Marshal, Enc.marshalValue, Enc.marshalMap, hs2, Enc.mapEntries,
      Enc.writeKVPair, Enc.isVectorValue, Enc.isEmptyVector, List.isEmpty]
    decide!

/-- **C1** (amended): the round trip holds on the numeric layer and on a
domain excluding the failure modes: `parseIntValue` inverts the encoder's
decimal rendering for every `int64` (general clause), and marshalling then
re-parsing is the identity on dicts of scalars without multiline strings or
comma-carrying first entries — including nested dicts and lists, empty
vectors, and `nan`. -/
theorem C1_round_trip :
    (∀ n : Int, -(2 ^ 63) ≤ n → n < 2 ^ 63 →
      Strm.parseIntValue (intToStr n) = .ok n) ∧
    Strm.Unmarshal 1000 (Enc.Marshal (.dict [(gs "a", .int 1), (gs "b", .bool true),
        (gs "c", .null), (gs "d", .str (gs "hi"))])) =
      .ok (.dict [(gs "a", .int 1), (gs "b", .bool true), (gs "c", .null),
        (gs "d", .str (gs "hi"))]) ∧
    Strm.Unmarshal 1000 (Enc.Marshal (.dict [(gs "d", .dict [(gs "x", .int 1)]),
        (gs "l", .list [.int 1, .int 2])])) =
      .ok (.dict [(gs "d", .dict [(gs "x", .int 1)]),
        (gs "l", .list [.int 1, .int 2])]) ∧
    Strm.Unmarshal 1000 (Enc.Marshal (.dict [(gs "e", .dict []), (gs "f", .list [])])) =
      .ok (.dict [(gs "e", .dict []), (gs "f", .list [])]) ∧
    Strm.Unmarshal 1000 (Enc.Marshal (.dict [(gs "k", .float .nan)])) =
      .ok (.dict [(gs "k", .float .nan)]) := by
  have hs1 : Enc.sortEntries [(gs "a", Value.int 1), (gs "b", Value.bool true),
      (gs "c", Value.null), (gs "d", Value.str (gs "hi"))] =
      [(gs "a", Value.int 1), (gs "b", Value.bool true), (gs "c", Value.null),
       (gs "d", Value.str (gs "hi"))] := beqD_sound _ _ (by decide!)
  have hs2 : Enc.sortEntries [(gs "d", Value.dict [(gs "x", Value.int 1)]),
      (gs "l", Value.list [Value.int 1, Value.int 2])] =
      [(gs "d", Value.dict [(gs "x", Value.int 1)]),
       (gs "l", Value.list [Value.int 1, Value.int 2])] := beqD_sound _ _ (by decide!)
  have hs2x : Enc.sortEntries [(gs "x", Value.int 1)] = [(gs "x", Value.int 1)] :=
    beqD_sound _ _ (by decide!)
  have hs3 : Enc.sortEntries [(gs "e", Value.dict []), (gs "f", Value.list [])] =
      [(gs "e", Value.dict []), (gs "f", Value.list [])] := beqD_sound _ _ (by decide!)
  have hs4 : Enc.sortEntries [(gs "k", Value.float GFloat.nan)] =
      [(gs "k", Value.float GFloat.nan)] := beqD_sound _ _ (by decide!)
  have hM1 : Enc.Marshal (.dict [(gs "a", .int 1), (gs "b", .bool true),
      (gs "c", .null), (gs "d", .str (gs "hi"))]) =
      gs "%HUML v0.1.0\na: 1\nb: true\nc: null\nd: \"hi\"\n" := by
    simp only [Enc.Marshal, Enc.marshalValue, Enc.marshalMap, hs1, Enc.mapEntries,
      Enc.writeKVPair, Enc.isVectorValue, Enc.isEmptyVector, List.isEmpty]
    decide!
  have hM2 : Enc.Marshal (.dict [(gs "d", .dict [(gs "x", .int 1)]),
      (gs "l", .list [.int 1, .int 2])]) =
      gs "%HUML v0.1.0\nd::\n  x: 1\nl::\n  - 1\n  - 2\n" := by
    simp only [Enc.Marshal, Enc.marshalValue, Enc.marshalMap, hs2, hs2x,
      Enc.mapEntries, Enc.writeKVPair, Enc.isVectorValue, Enc.isEmptyVector,
      Enc.marshalSlice, Enc.sliceItems, List.isEmpty]
    decide!
  have hM3 : Enc.Marshal (.dict [(gs "e", .dict []), (gs "f", .list [])]) =
      gs "%HUML v0.1.0\ne:: {}\nf:: []\n" := by
    simp only [Enc.Marshal, Enc.marshalValue, Enc.marshalMap, hs3, Enc.mapEntries,
      Enc.writeKVPair, Enc.isVectorValue, Enc.isEmptyVector, Enc.marshalSlice,
      List.isEmpty]
    decide!
  have hM4 : Enc.Marshal (.dict [(gs "k", .float .nan)]) =
      gs "%HUML v0.1.0\nk: nan\n" := by
    simp only [Enc.Marshal, Enc.marshalValue, Enc.marshalMap, hs4, Enc.mapEntries,
      Enc.writeKVPair, Enc.isVectorValue, Enc.isEmptyVector, List.isEmpty]
    decide!
  refine ⟨parseIntValue_intToStr, ?_, ?_, ?_, ?_⟩
  · rw [hM1]; exact beqRes_sound _ _ (by decide!)
  · rw [hM2]; exact beqRes_sound _ _ (by decide!)
  · rw [hM3]; exact beqRes_sound _ _ (by decide!)
  · rw [hM4]; exact beqRes_sound _ _ (by decide!)

/-- Witness for the general clause of `C1_round_trip`: the encoder's decimal
rendering of `-37` parses back to `-37`. -/
theorem C1_round_trip_witness :
    Strm.parseIntValue (intToStr (-37)) = .ok (-37) :=
  C1_round_trip.1 (-37) (by decide) (by decide)

end Huml
